import Mathlib

/-!
# Verification of the `delphi` memristor logic-synthesis pipeline

Shallow embedding of the Rust sources (`src/parser/mod.rs`, `src/scheduler/mod.rs`,
`src/mapper/mod.rs`, `src/generator/mod.rs`) of the `delphi` crate, together with
theorems settling the frozen claims about the pipeline.

Modelling conventions:
* Rust `i32` wire identifiers and schedule levels become `Int` (no value in the
  programs approaches the `i32` range, and no wrapping arithmetic is performed).
* Rust `usize` counters become `Nat`.
* `Vec<TableGate>` becomes `List TableGate`; out-of-bounds reads (which would
  panic in Rust and never happen on the inputs considered) return a default gate.
* The crossbar array (`Vec<Vec<MemristiveGate>>`, fixed 500 × 1000 in Rust,
  every cell initialised to `MemristiveGate::default()`) becomes a total function
  `Nat → Nat → MemGate` whose initial value is the default cell; the `reset`
  loops at the top of the mappers rewrite exactly the default field values into
  a freshly created mapping and are therefore the identity here.
* Rust's stable `sort_by` is modelled by Mathlib's stable `List.insertionSort`
  (any two stable sorts agree on every input).
* The unbounded `while` fixed-point loops of the scheduler are modelled with an
  explicit fuel parameter plus a Boolean "exited" flag: the flag is `true`
  exactly when the Rust loop terminates within that many iterations, and in
  that case the returned state is the state the Rust code produces.
-/

namespace Delphi

/-- `MAX_GATES` partition constant (`lib.rs`). -/
def MAX_GATES : Int := 8000

/-- `OUT_BIAS` output tag constant (`lib.rs`). -/
def OUT_BIAS : Int := 10000

/-- `MemristiveGate` (`lib.rs`): a crossbar cell.  The Rust struct stores its
input cells as `Vec<Option<Box<MemristiveGate>>>` (deep clones), so the type is
recursive and is modelled as a nested inductive. -/
inductive MemGate : Type where
  | mk (fanin : Nat) (inputs : List (Option MemGate)) (value : Int) (idx : Int)
       (jdx : Int) (state : Int) (asap_level : Int) (list_time : Int)
       (is_copy : Bool) : MemGate

namespace MemGate

def fanin : MemGate → Nat
  | .mk f _ _ _ _ _ _ _ _ => f

def inputs : MemGate → List (Option MemGate)
  | .mk _ i _ _ _ _ _ _ _ => i

def value : MemGate → Int
  | .mk _ _ v _ _ _ _ _ _ => v

def idx : MemGate → Int
  | .mk _ _ _ x _ _ _ _ _ => x

def jdx : MemGate → Int
  | .mk _ _ _ _ j _ _ _ _ => j

def state : MemGate → Int
  | .mk _ _ _ _ _ s _ _ _ => s

def asap_level : MemGate → Int
  | .mk _ _ _ _ _ _ a _ _ => a

def list_time : MemGate → Int
  | .mk _ _ _ _ _ _ _ t _ => t

def is_copy : MemGate → Bool
  | .mk _ _ _ _ _ _ _ _ c => c

/-- `MemristiveGate::default()`. -/
def default : MemGate :=
  .mk 0 [none, none, none, none, none] (-1) (-1) (-1) (-1) (-1) (-1) false

/-- Read input slot `j` (`mem.inputs[j]`). -/
def inp (m : MemGate) (j : Nat) : Option MemGate :=
  m.inputs.getD j none

end MemGate

/-- `TableGate` (`lib.rs`): a logical gate node.  The `output_gates` scratch
array (used only by the unused `find_gate_outputs`) is omitted. -/
structure TableGate : Type where
  fanin : Nat
  inputs : List Int
  out : Int
  asap_level : Int
  alap_level : Int
  list_level : Int
  list_time : Int
  mobility : Int
  slack : Int
  is_output : Bool
  gate_map : Option MemGate

/-- `TableGate::default()`. -/
def TableGate.default : TableGate :=
  { fanin := 0, inputs := [-1, -1, -1, -1, -1], out := -1, asap_level := -1,
    alap_level := -1, list_level := -1, list_time := -1, mobility := 0,
    slack := 0, is_output := false, gate_map := none }

/-- Read input slot `j` of a gate (`gate.inputs[j]`). -/
def TableGate.inp (g : TableGate) (j : Nat) : Int :=
  g.inputs.getD j (-1)

/-- `Circuit` (`lib.rs`).  `primary_inputs` (a 1000-slot zero-initialised array
in Rust) is modelled as a total function from slot index to stored id. -/
structure Circuit : Type where
  gates : List TableGate
  numGates : Nat
  primaryInputs : Nat → Int
  numInputs : Nat
  numOutputs : Nat
  maxAsap : Int
  maxAlap : Int
  maxList : Int

/-- `Circuit::new()`. -/
def Circuit.new : Circuit :=
  { gates := [], numGates := 0, primaryInputs := fun _ => 0, numInputs := 0,
    numOutputs := 0, maxAsap := 0, maxAlap := 0, maxList := 0 }

/-- `circuit.gates[i]` (reads never go out of bounds on the runs considered). -/
def gateAt (c : Circuit) (i : Nat) : TableGate :=
  c.gates.getD i TableGate.default

/-- `circuit.gates[i] = g` in-place update. -/
def setGate (c : Circuit) (i : Nat) (g : TableGate) : Circuit :=
  { c with gates := c.gates.set i g }

end Delphi

/-! ## Parser (`src/parser/mod.rs`) -/

namespace Delphi

/-- Value of a digit run (`str::parse::<i32>` on a `\\d+` capture; captures in
the inputs considered are far below the `i32` limit). -/
def natOfDigits (ds : List Char) : Nat :=
  ds.foldl (fun acc d => 10 * acc + (d.toNat - 48)) 0

/-- Successive non-overlapping matches of the regex `p(\\d+)` over a character
list, in textual order, as produced by `Regex::captures_iter`: at each position
a match needs the literal `p` followed by at least one digit; the capture is
the maximal digit run and the scan resumes after it.  The extra `Nat` is a
structural-recursion counter (any value at least the list length is exact). -/
def scanVarsGo (p : Char) : Nat → List Char → List Nat
  | 0, _ => []
  | _, [] => []
  | fuel + 1, ch :: rest =>
    if ch = p then
      let ds := rest.takeWhile Char.isDigit
      if ds.isEmpty then scanVarsGo p fuel rest
      else natOfDigits ds :: scanVarsGo p fuel (rest.drop ds.length)
    else scanVarsGo p fuel rest

/-- The `p(\\d+)` scan with enough fuel for the whole list. -/
def scanVars (p : Char) (cs : List Char) : List Nat :=
  scanVarsGo p cs.length cs

/-- `count_variables`: number of `n`/`x` characters on the line. -/
def countVariables (cs : List Char) : Nat :=
  (cs.filter (fun c => c = 'n' || c = 'x')).length

/-- `line.find('=')`: split at the first `=`, excluding it
(`&line[0..pos]` / `&line[pos+1..]`). -/
def splitAtEq : List Char → Option (List Char × List Char)
  | [] => none
  | c :: rest =>
    if c = '=' then some ([], rest)
    else match splitAtEq rest with
      | some (l, r) => some (c :: l, r)
      | none => none

/-- `extract_variables` (`parser/mod.rs:149`): the first `nN` capture of the
left-hand side, then every `xN` capture of the right-hand side re-encoded as
`MAX_GATES + N`, then every `nN` capture of the right-hand side. -/
def extractVariablesL (cs : List Char) : List Int :=
  if countVariables cs = 0 then []
  else
    match splitAtEq cs with
    | none => []
    | some (leftSide, rightSide) =>
      let leftVarIds : List Nat := scanVars 'n' leftSide
      let varIds : List Int :=
        match leftVarIds with
        | [] => []
        | v :: _ => [(v : Int)]
      varIds ++ (scanVars 'x' rightSide).map (fun n => MAX_GATES + (n : Int))
             ++ (scanVars 'n' rightSide).map (fun n => (n : Int))

/-- `extract_variables` on a string. -/
def extractVariables (line : String) : List Int :=
  extractVariablesL line.toList

/-- Strip the `OUT_BIAS` tag: `if v >= OUT_BIAS { v - OUT_BIAS } else { v }`. -/
def stripBias (v : Int) : Int :=
  if v ≥ OUT_BIAS then v - OUT_BIAS else v

/-- Append one parsed gate to the circuit
(`circuit.gates.push(gate); circuit.num_gates += 1`). -/
def pushGate (c : Circuit) (g : TableGate) : Circuit :=
  { c with gates := c.gates ++ [g], numGates := c.numGates + 1 }

/-- A fresh `TableGate::default()` with `fanin`, `out` and the first inputs
filled in, as the parser's match arms do. -/
def mkParsedGate (fanin : Nat) (out : Int) (ins : List Int) : TableGate :=
  { TableGate.default with
    fanin := fanin, out := out,
    inputs := ins ++ (List.replicate (5 - ins.length) (-1)) }

/-- One iteration of the parser's line loop (the `match var_ids.len()` arms of
`parse_netlist`); returns `none` on the `bail!` arity arm.  State: circuit and
the `temp_var` counter. -/
def parseLine (c : Circuit) (tempVar : Int) (varIds : List Int) :
    Option (Circuit × Int) :=
  match varIds with
  | [v0, v1] =>
    let g : TableGate :=
      { mkParsedGate 1 (stripBias v0) [stripBias v1] with
          is_output := decide (v0 ≥ OUT_BIAS) }
    let c := pushGate c g
    let c := if v0 ≥ OUT_BIAS then { c with numOutputs := c.numOutputs + 1 } else c
    some (c, tempVar)
  | [v0, v1, v2] =>
    let g : TableGate :=
      { mkParsedGate 2 (stripBias v0) [stripBias v1, stripBias v2] with
        is_output := decide (v0 ≥ OUT_BIAS) }
    let c := pushGate c g
    let c := if v0 ≥ OUT_BIAS then { c with numOutputs := c.numOutputs + 1 } else c
    some (c, tempVar)
  | [v0, v1, v2, v3] =>
    let c := pushGate c (mkParsedGate 2 (-tempVar) [v2, v3])
    let c := pushGate c (mkParsedGate 2 v0 [v1, -tempVar])
    some (c, tempVar + 1)
  | [v0, v1, v2, v3, v4] =>
    let c := pushGate c (mkParsedGate 2 (-tempVar) [v1, v2])
    let c := pushGate c (mkParsedGate 2 (-(tempVar + 1)) [v3, v4])
    let c := pushGate c (mkParsedGate 2 v0 [-tempVar, -(tempVar + 1)])
    some (c, tempVar + 2)
  | _ => none

/-- `str::trim` on a character list. -/
def strTrim (cs : List Char) : List Char :=
  ((cs.dropWhile Char.isWhitespace).reverse.dropWhile Char.isWhitespace).reverse

/-- The parser's line loop over the input lines (a line starting with `.`
terminates the scan). -/
def parseLoop : List String → Circuit → Int → Option Circuit
  | [], c, _ => some c
  | l :: rest, c, tempVar =>
    let cs := strTrim l.toList
    if cs.head? = some '.' then some c
    else
      match parseLine c tempVar (extractVariablesL cs) with
      | none => none
      | some (c, tempVar) => parseLoop rest c tempVar

/-- `parse_netlist` (file I/O and benchmark-name extraction omitted): parse all
lines, then initialise every gate's `asap/alap/list` levels to `-1`. -/
def parseNetlist (lines : List String) : Option Circuit :=
  let c := { Circuit.new with numInputs := 0 }
  match parseLoop lines c 1 with
  | none => none
  | some c =>
    some { c with gates := c.gates.map (fun g =>
      { g with asap_level := -1, alap_level := -1, list_level := -1 }) }

/-- `find_primary_inputs` (`parser/mod.rs:216`). -/
def findPrimaryInputs (c : Circuit) : Circuit :=
  let c := { c with numInputs := 0 }
  let maxInputNum : Int :=
    (List.range c.numGates).foldl (fun m k =>
      (List.range (gateAt c k).fanin).foldl (fun m j =>
        if (gateAt c k).inp j ≥ MAX_GATES then
          let inputNum := (gateAt c k).inp j - MAX_GATES
          if inputNum > m then inputNum else m
        else m) m) 0
  let c := { c with numInputs := (maxInputNum + 1).toNat }
  (List.range c.numGates).foldl (fun c k =>
    (List.range (gateAt c k).fanin).foldl (fun c j =>
      if (gateAt c k).inp j ≥ MAX_GATES then
        let idx := ((gateAt c k).inp j - MAX_GATES).toNat
        { c with primaryInputs := fun n =>
            if n = idx then (gateAt c k).inp j else c.primaryInputs n }
      else c) c) c

end Delphi

/-! ## Scheduler (`src/scheduler/mod.rs`) -/

namespace Delphi

/-- `is_pi` (`scheduler/mod.rs:151`): a wire is a primary input when no gate
produces it. -/
def isPi (c : Circuit) (lineId : Int) : Bool :=
  !(List.range c.numGates).any (fun i => (gateAt c i).out = lineId)

/-- `is_po` (`scheduler/mod.rs:161`): a wire is a primary output when no gate
(including the producer itself) consumes it. -/
def isPo (c : Circuit) (lineId : Int) : Bool :=
  !(List.range c.numGates).any (fun i =>
    (List.range (gateAt c i).fanin).any (fun j => (gateAt c i).inp j = lineId))

/-- First gate index producing `lineId` (the scan of `get_asap_level` etc.). -/
def producerIdx (c : Circuit) (lineId : Int) : Option Nat :=
  (List.range c.numGates).find? (fun i => (gateAt c i).out = lineId)

/-- `get_asap_level` (`scheduler/mod.rs:106`). -/
def getAsapLevel (c : Circuit) (lineId : Int) : Int :=
  if isPi c lineId then 0
  else
    match producerIdx c lineId with
    | some i => (gateAt c i).asap_level
    | none => -1

/-- `get_list_level` (`scheduler/mod.rs:136`). -/
def getListLevel (c : Circuit) (lineId : Int) : Int :=
  if isPi c lineId then 0
  else
    match producerIdx c lineId with
    | some i => (gateAt c i).list_level
    | none => -1

/-- Record a freshly assigned ASAP level on the circuit maximum
(`if level > circuit.max_asap { circuit.max_asap = level }`). -/
def bumpMaxAsap (c : Circuit) (level : Int) : Circuit :=
  if level > c.maxAsap then { c with maxAsap := level } else c

/-- One full `for i in 0..num_gates` pass of `compute_asap_schedule`, threading
the `count` accumulator.  Note the source increments `count` every time a
gate's operands are available, whether or not the gate was already assigned. -/
def asapPass (c0 : Circuit) (count : Nat) : Circuit × Nat :=
  (List.range c0.numGates).foldl (fun (s : Circuit × Nat) i =>
    let c := s.1
    let g := gateAt c i
    if g.fanin = 1 then
      let inputLevel := getAsapLevel c (g.inp 0)
      if inputLevel ≠ -1 then
        (bumpMaxAsap (setGate c i { g with asap_level := inputLevel + 1 })
          (inputLevel + 1), s.2 + 1)
      else s
    else if g.fanin = 2 then
      let input1Level := getAsapLevel c (g.inp 0)
      let input2Level := getAsapLevel c (g.inp 1)
      let maxLevel := max input1Level input2Level
      if input1Level ≠ -1 ∧ input2Level ≠ -1 then
        (bumpMaxAsap (setGate c i { g with asap_level := maxLevel + 1 })
          (maxLevel + 1), s.2 + 1)
      else s
    else s) (c0, count)

/-- The `while count < num_gates` loop of `compute_asap_schedule`, with fuel.
The Boolean is `true` iff the Rust loop exits within `fuel` passes; when it is
`true` the returned circuit is exactly the Rust result. -/
def asapGo : Nat → Circuit → Nat → Circuit × Bool
  | fuel, c, count =>
    if count ≥ c.numGates then (c, true)
    else
      match fuel with
      | 0 => (c, false)
      | fuel + 1 =>
        let s := asapPass c count
        asapGo fuel s.1 s.2

/-- `compute_asap_schedule` (`scheduler/mod.rs:6`), fuel-bounded. -/
def computeAsapSchedule (c : Circuit) (fuel : Nat) : Circuit × Bool :=
  asapGo fuel c 0

/-- `all_alap_labeled` (`scheduler/mod.rs:173`). -/
def allAlapLabeled (c : Circuit) : Bool :=
  (List.range c.numGates).all (fun i => (gateAt c i).alap_level ≠ -1)

/-- `update_alap` (`scheduler/mod.rs:183`): raise gate `index` one past any
labeled consumer of `lineId` that is at least as late. -/
def updateAlap (c : Circuit) (index : Nat) (lineId : Int) : Circuit :=
  (List.range c.numGates).foldl (fun c j =>
    (List.range (gateAt c j).fanin).foldl (fun c k =>
      if lineId = (gateAt c j).inp k ∧ (gateAt c j).alap_level ≠ -1 then
        if (gateAt c index).alap_level ≤ (gateAt c j).alap_level then
          setGate c index
            { gateAt c index with
                alap_level := (gateAt c j).alap_level + 1 }
        else c
      else c) c) c

/-- One `for i in 0..num_gates { update_alap(i, out_i) }` pass. -/
def alapPass (c : Circuit) : Circuit :=
  (List.range c.numGates).foldl (fun c i => updateAlap c i (gateAt c i).out) c

/-- The `while !all_alap_labeled` loop, with fuel. -/
def alapGo : Nat → Circuit → Circuit × Bool
  | fuel, c =>
    if allAlapLabeled c then (c, true)
    else
      match fuel with
      | 0 => (c, false)
      | fuel + 1 => alapGo fuel (alapPass c)

/-- The PO initialisation loop of `compute_alap_schedule`. -/
def alapInit (c : Circuit) : Circuit :=
  (List.range c.numGates).foldl (fun c i =>
    if isPo c (gateAt c i).out then
      setGate c i { gateAt c i with alap_level := 1 }
    else c) c

/-- The ten additional convergence passes of `compute_alap_schedule`. -/
def alapExtra (c : Circuit) : Circuit :=
  (List.range 10).foldl (fun c _ => alapPass c) c

/-- The final max computation and level inversion of `compute_alap_schedule`. -/
def alapFinish (c : Circuit) : Circuit :=
  let maxLevel :=
    (List.range c.numGates).foldl (fun m i =>
      if (gateAt c i).alap_level > m then (gateAt c i).alap_level else m) 0
  let c :=
    (List.range c.numGates).foldl (fun c i =>
      setGate c i
        { gateAt c i with
            alap_level := maxLevel - (gateAt c i).alap_level + 1 }) c
  { c with maxAlap := maxLevel }

/-- `compute_alap_schedule` (`scheduler/mod.rs:40`), fuel-bounded.  When the
flag is `true` the Rust function terminates and returns this circuit. -/
def computeAlapSchedule (c : Circuit) (fuel : Nat) : Circuit × Bool :=
  match alapGo fuel (alapInit c) with
  | (c, true) => (alapFinish (alapExtra c), true)
  | (c, false) => (c, false)

end Delphi

namespace Delphi

/-- The inner `for i in 0..num_gates` scan of `list_schedule_possible`
(`scheduler/mod.rs:195`), including the `break` once `gates_in_level` reaches
`max_gates`.  State: circuit, `max_level_assigned`, `gates_in_level`, `ngates`,
`flag`.  As in `compute_asap_schedule`, a gate whose operands are available is
(re)assigned and counted on every pass. -/
def listPassGo (maxGates : Int) :
    List Nat → Circuit → Int → Int → Nat → Bool → Circuit × Int × Nat × Bool
  | [], c, mla, _, ngates, flag => (c, mla, ngates, flag)
  | i :: rest, c, mla, gil, ngates, flag =>
    let g := gateAt c i
    if g.fanin = 1 then
      let inputLevel := getListLevel c (g.inp 0)
      if inputLevel ≠ -1 then
        let c := setGate c i { g with list_level := inputLevel + 1 }
        let mla := if mla < inputLevel + 1 then inputLevel + 1 else mla
        let gil := gil + 1
        if gil = maxGates then (c, mla, ngates + 1, true)
        else listPassGo maxGates rest c mla gil (ngates + 1) true
      else listPassGo maxGates rest c mla gil ngates flag
    else if g.fanin = 2 then
      let input1Level := getListLevel c (g.inp 0)
      let input2Level := getListLevel c (g.inp 1)
      let maxInputLevel := max input1Level input2Level
      if input1Level ≠ -1 ∧ input2Level ≠ -1 then
        let c := setGate c i { g with list_level := maxInputLevel + 1 }
        let mla := if mla < maxInputLevel + 1 then maxInputLevel + 1 else mla
        let gil := gil + 1
        if gil = maxGates then (c, mla, ngates + 1, true)
        else listPassGo maxGates rest c mla gil (ngates + 1) true
      else listPassGo maxGates rest c mla gil ngates flag
    else listPassGo maxGates rest c mla gil ngates flag

/-- The `while ngates < num_gates` loop of `list_schedule_possible`, with fuel.
Returns `none` when fuel runs out (the Rust loop would still be running),
otherwise `some` of the Rust return value. -/
def listGo (maxLevel maxGates : Int) :
    Nat → Circuit → Int → Nat → Circuit × Option Bool
  | fuel, c, mla, ngates =>
    if ngates ≥ c.numGates then (c, some (decide (mla = maxLevel)))
    else
      match fuel with
      | 0 => (c, none)
      | fuel + 1 =>
        let r := listPassGo maxGates (List.range c.numGates) c mla 0 ngates false
        if r.2.2.2 = false then (r.1, some false)
        else listGo maxLevel maxGates fuel r.1 r.2.1 r.2.2.1

/-- `list_schedule_possible` (`scheduler/mod.rs:195`), fuel-bounded. -/
def listSchedulePossible (c : Circuit) (maxLevel maxGates : Int) (fuel : Nat) :
    Circuit × Option Bool :=
  listGo maxLevel maxGates fuel c 0 0

/-- The candidate loop `for max_gates in 2..20` of `compute_list_schedule`,
resetting `list_level` before every attempt and stopping at the first feasible
candidate. -/
def listCandidates (maxLevel : Int) (fuel : Nat) :
    List Int → Circuit → Circuit × Option Bool
  | [], c => (c, some false)
  | maxGates :: rest, c =>
    let c := (List.range c.numGates).foldl (fun c i =>
      setGate c i { gateAt c i with list_level := -1 }) c
    match listSchedulePossible c maxLevel maxGates fuel with
    | (c, some true) => ({ c with maxList := maxLevel }, some true)
    | (c, some false) => listCandidates maxLevel fuel rest c
    | (c, none) => (c, none)

/-- `compute_list_schedule` (`scheduler/mod.rs:77`), fuel-bounded: compute
mobilities and the maximal ASAP level, sort the gate table by mobility
(stable), then try `max_gates ∈ {2,…,19}`.  The Boolean is `some found` when
every attempted Rust fixed-point terminated. -/
def computeListSchedule (c : Circuit) (fuel : Nat) : Circuit × Option Bool :=
  let pre :=
    (List.range c.numGates).foldl (fun (s : Circuit × Int) i =>
      let c := s.1
      let g := gateAt c i
      let c := setGate c i { g with mobility := g.alap_level - g.asap_level }
      ((c : Circuit), if (gateAt c i).asap_level > s.2 then (gateAt c i).asap_level else s.2))
      (c, 0)
  let c := pre.1
  let maxLevel := pre.2
  let c := { c with gates :=
    c.gates.insertionSort (fun a b => a.mobility ≤ b.mobility) }
  listCandidates maxLevel fuel ((List.range 18).map (fun k => (k : Int) + 2)) c

end Delphi

/-! ## Mapper (`src/mapper/mod.rs`) -/

namespace Delphi

namespace MemGate

def setFanin : MemGate → Nat → MemGate
  | .mk _ i v x j s a t c, f => .mk f i v x j s a t c

def setValue : MemGate → Int → MemGate
  | .mk f i _ x j s a t c, v => .mk f i v x j s a t c

def setIdx : MemGate → Int → MemGate
  | .mk f i v _ j s a t c, x => .mk f i v x j s a t c

def setJdx : MemGate → Int → MemGate
  | .mk f i v x _ s a t c, j => .mk f i v x j s a t c

def setAsap : MemGate → Int → MemGate
  | .mk f i v x j s _ t c, a => .mk f i v x j s a t c

def setIsCopy : MemGate → Bool → MemGate
  | .mk f i v x j s a t _, c => .mk f i v x j s a t c

/-- `mem.inputs[k] = v`. -/
def setInp : MemGate → Nat → Option MemGate → MemGate
  | .mk f i v x j s a t c, k, w => .mk f (i.set k w) v x j s a t c

end MemGate

/-- `CrossbarMapping` (`lib.rs`): the crossbar lattice with its high-water
coordinates.  The 500 × 1000 array of default cells is a total function. -/
structure Mapping : Type where
  crossbar : Nat → Nat → MemGate
  maxIdx : Int
  maxJdx : Int

/-- `CrossbarMapping::new()` followed by the mapper's reset loop (which
re-writes exactly the default field values, hence is the identity). -/
def Mapping.new : Mapping :=
  { crossbar := fun _ _ => MemGate.default, maxIdx := 0, maxJdx := 0 }

/-- `mapping.crossbar[r][cc] = g`. -/
def Mapping.wr (m : Mapping) (r cc : Nat) (g : MemGate) : Mapping :=
  { m with crossbar := fun r' c' =>
      if r' = r ∧ c' = cc then g else m.crossbar r' c' }

/-- The `inv_map` HashMap (`out → gate index`, last insertion wins),
built over `0..num_gates` once the gates are sorted. -/
def invMapGet (c : Circuit) (w : Int) : Option Nat :=
  (List.range c.numGates).foldl (fun acc i =>
    if (gateAt c i).out = w then some i else acc) none

/-- The `gate_map` reset loop shared by both mappers. -/
def resetGateMaps (c : Circuit) : Circuit :=
  (List.range c.numGates).foldl (fun c i =>
    setGate c i { gateAt c i with gate_map := none }) c

/-- The stable sort by `asap_level` shared by both mappers
(`circuit.gates.sort_by(|a, b| a.asap_level.cmp(&b.asap_level))`). -/
def sortGatesByAsap (c : Circuit) : Circuit :=
  { c with gates :=
      c.gates.insertionSort (fun a b => a.asap_level ≤ b.asap_level) }

/-- The body of `create_naive_mapping`'s gate loop for gate `i`. -/
def naiveStep (s : Circuit × Mapping) (i : Nat) : Circuit × Mapping :=
  let c := s.1
  let m := s.2
  let m := { m with maxJdx := m.maxJdx + 1 }
  let g := gateAt c i
  let ip1 := g.inp 0
  let ip2 := if g.fanin > 1 then g.inp 1 else -1
  let col := m.maxJdx.toNat
  let cell := ((((m.crossbar 0 col).setFanin g.fanin).setValue g.out).setJdx
      m.maxJdx).setIdx 0
  let cell := cell.setAsap g.asap_level
  let m := m.wr 0 col cell
  let c := setGate c i { g with gate_map := some cell }
  let m :=
    if ip1 ≥ MAX_GATES then
      let inputNum := ip1 - MAX_GATES
      if inputNum < (c.numInputs : Int) then
        m.wr 0 col ((m.crossbar 0 col).setInp 0
          (some (m.crossbar 0 inputNum.toNat)))
      else m
    else if ip1 > 0 then
      match invMapGet c ip1 with
      | some gateIdx =>
        match (gateAt c gateIdx).gate_map with
        | some gm => m.wr 0 col ((m.crossbar 0 col).setInp 0 (some gm))
        | none => m
      | none => m
    else m
  let m :=
    if g.fanin > 1 ∧ ip2 ≠ -1 then
      if ip2 ≥ MAX_GATES then
        let inputNum := ip2 - MAX_GATES
        if inputNum < (c.numInputs : Int) then
          m.wr 0 col ((m.crossbar 0 col).setInp 1
            (some (m.crossbar 0 inputNum.toNat)))
        else m
      else if ip2 > 0 then
        match invMapGet c ip2 with
        | some gateIdx =>
          match (gateAt c gateIdx).gate_map with
          | some gm => m.wr 0 col ((m.crossbar 0 col).setInp 1 (some gm))
          | none => m
        | none => m
      else m
    else m
  (c, m)

/-- `create_naive_mapping` (`mapper/mod.rs:7`). -/
def createNaiveMapping (c : Circuit) : Circuit × Mapping :=
  let m := Mapping.new
  let c := resetGateMaps c
  let c := sortGatesByAsap c
  if c.numInputs = 0 then (c, m)
  else
    let m := (List.range c.numInputs).foldl (fun m j =>
      m.wr 0 j ((((m.crossbar 0 j).setValue (MAX_GATES + j)).setIdx 0).setJdx
        j)) m
    let m := { m with maxJdx := (c.numInputs : Int) - 1 }
    (List.range c.numGates).foldl naiveStep (c, m)

end Delphi

namespace Delphi

/-- Row of the cell holding operand `ip` (the `temp_idx`/`temp_udx`/`map_idx`
chains of `create_compact_mapping`, which this code repeats verbatim): the
primary-input row for an in-range primary input, the placement row recorded in
the producer's `gate_map`, and row `0` in every fallback. -/
def rowOfOperand (c : Circuit) (ip : Int) : Nat :=
  if ip ≥ MAX_GATES then
    if ip - MAX_GATES < (c.numInputs : Int) then (ip - MAX_GATES).toNat else 0
  else
    match invMapGet c ip with
    | some gateIdx =>
      match (gateAt c gateIdx).gate_map with
      | some gm => gm.idx.toNat
      | none => 0
    | none => 0

/-- Column of the cell holding operand `ip` (the `temp_jdx`/`temp_vdx`
chains): primary inputs are always in column `0`. -/
def colOfOperand (c : Circuit) (ip : Int) : Nat :=
  if ip ≥ MAX_GATES then 0
  else
    match invMapGet c ip with
    | some gateIdx =>
      match (gateAt c gateIdx).gate_map with
      | some gm => gm.jdx.toNat
      | none => 0
    | none => 0

/-- `av_row[r] += 1`. -/
def avBump (av : Nat → Nat) (r : Nat) : Nat → Nat :=
  fun r' => if r' = r then av r + 1 else av r'

/-- State threaded through `create_compact_mapping`'s gate loop. -/
structure CState : Type where
  c : Circuit
  m : Mapping
  av : Nat → Nat

/-- The copy cell built when a NOR's operands live on different rows
(`mapper/mod.rs:304`–`335`): `is_copy` is set, and only when operand 1 is a
primary input or a positive id with a producer entry does the cell receive an
input reference and `value = ip1`. -/
def mkCopyGate (c : Circuit) (m : Mapping) (ip1 : Int) (idx jdx : Nat) :
    MemGate :=
  let copy := MemGate.default.setIsCopy true
  let copy :=
    if ip1 ≥ MAX_GATES ∨ (ip1 > 0 ∧ (invMapGet c ip1).isSome) then
      let inputGate :=
        if ip1 ≥ MAX_GATES then
          if ip1 - MAX_GATES < (c.numInputs : Int) then
            m.crossbar (ip1 - MAX_GATES).toNat 0
          else m.crossbar 0 0
        else
          match invMapGet c ip1 with
          | some gateIdx =>
            match (gateAt c gateIdx).gate_map with
            | some gm => gm
            | none => m.crossbar 0 0
          | none => m.crossbar 0 0
      (copy.setInp 0 (some inputGate)).setValue ip1
    else copy
  (copy.setIdx idx).setJdx jdx

/-- The body of `create_compact_mapping`'s gate loop for gate `i`
(`mapper/mod.rs:169`–`375`). -/
def compactStep (s : CState) (i : Nat) : CState :=
  let g := gateAt s.c i
  let ip1 := g.inp 0
  if g.fanin = 1 then
    -- NOT gate
    let mapIdx := rowOfOperand s.c ip1
    let mapJdx := s.av mapIdx
    let av := avBump s.av mapIdx
    let memGate := ((((MemGate.default.setIdx mapIdx).setJdx mapJdx).setFanin
        1).setValue g.out).setAsap g.asap_level
    let memGate :=
      if ip1 ≥ MAX_GATES then
        if ip1 - MAX_GATES < (s.c.numInputs : Int) then
          memGate.setInp 0 (some (s.m.crossbar (ip1 - MAX_GATES).toNat 0))
        else memGate
      else
        match invMapGet s.c ip1 with
        | some gateIdx =>
          match (gateAt s.c gateIdx).gate_map with
          | some gm => memGate.setInp 0 (some gm)
          | none => memGate
        | none => memGate
    let m := s.m.wr mapIdx mapJdx memGate
    let c := setGate s.c i { g with gate_map := some memGate }
    let m := if (mapJdx : Int) > m.maxJdx then { m with maxJdx := mapJdx } else m
    ⟨c, m, av⟩
  else
    -- NOR gate (the source's `else` arm)
    let ip2 := g.inp 1
    let tempIdx := rowOfOperand s.c ip1
    let tempJdx := colOfOperand s.c ip1
    let tempUdx := rowOfOperand s.c ip2
    let tempVdx := colOfOperand s.c ip2
    if tempIdx = tempUdx then
      -- both operands on the same row
      let mapIdx := tempIdx
      let mapJdx := s.av mapIdx
      let av := avBump (avBump s.av mapIdx) mapIdx
      let memGate := ((((MemGate.default.setAsap g.asap_level).setValue
          g.out).setIdx mapIdx).setJdx mapJdx).setFanin 2
      let memGate := memGate.setInp 0 (some (s.m.crossbar tempIdx tempJdx))
      let memGate := memGate.setInp 1 (some (s.m.crossbar tempUdx tempVdx))
      let m := s.m.wr mapIdx mapJdx memGate
      let c := setGate s.c i { g with gate_map := some memGate }
      let m := { m with maxIdx := max m.maxIdx (mapIdx : Int),
                        maxJdx := max m.maxJdx (mapJdx : Int) }
      ⟨c, m, av⟩
    else
      -- operands on different rows: inject a copy of operand 1 on operand
      -- 2's row, then place the NOR right after it
      let idx := tempUdx
      let jdx := s.av idx
      let av := avBump s.av idx
      let copyGate := mkCopyGate s.c s.m ip1 idx jdx
      let m := s.m.wr idx jdx copyGate
      let mapIdx := idx
      let mapJdx := av idx
      let av := avBump av mapIdx
      let memGate := ((((MemGate.default.setAsap g.asap_level).setValue
          g.out).setIdx mapIdx).setJdx mapJdx).setFanin 2
      let memGate := memGate.setInp 0 (some (m.crossbar mapIdx (mapJdx - 1)))
      let memGate := memGate.setInp 1 (some (m.crossbar tempUdx tempVdx))
      let m := m.wr mapIdx mapJdx memGate
      let c := setGate s.c i { g with gate_map := some memGate }
      let m := { m with maxIdx := max m.maxIdx (mapIdx : Int),
                        maxJdx := max m.maxJdx (mapJdx : Int) }
      ⟨c, m, av⟩

/-- `create_compact_mapping` (`mapper/mod.rs:116`). -/
def createCompactMapping (c : Circuit) : Circuit × Mapping :=
  let m := Mapping.new
  let c := resetGateMaps c
  let c := sortGatesByAsap c
  if c.numInputs = 0 then (c, m)
  else
    let av : Nat → Nat := fun _ => 0
    let st : CState :=
      (List.range c.numInputs).foldl (fun (s : CState) i =>
        ⟨s.c,
         s.m.wr i 0 ((((s.m.crossbar i 0).setValue (MAX_GATES + i)).setIdx
           i).setJdx 0),
         fun r => if r = i then 1 else s.av r⟩) ⟨c, m, av⟩
    let st : CState :=
      ⟨st.c, { st.m with maxIdx := (c.numInputs : Int) - 1 }, st.av⟩
    let st := (List.range c.numGates).foldl compactStep st
    (st.c, st.m)

end Delphi

/-! ## Generator (`src/generator/mod.rs`) -/

namespace Delphi

/-- The head input of a cell's input vector is structurally smaller than the
vector (termination measure for `formatGateName`). -/
theorem sizeOf_lt_of_getD {ins : List (Option MemGate)} {p : MemGate}
    (h : ins.getD 0 none = some p) : sizeOf p < sizeOf ins := by
  have hm : some p ∈ ins := by
    cases ins with
    | nil => simp [List.getD] at h
    | cons q qs =>
      simp [List.getD] at h
      subst h
      exact List.mem_cons_self _ _
  have h1 : sizeOf (some p) < sizeOf ins := List.sizeOf_lt_of_mem hm
  simp only [Option.some.sizeOf_spec] at h1
  omega

/-- `format_gate_name` (`generator/mod.rs:351`): `/N` for a primary input,
transitive chase through `inputs[0]` for a copy cell, `RxC` otherwise. -/
def formatGateName : MemGate → String
  | .mk _ ins v x j _ _ _ cp =>
    if v ≥ MAX_GATES then "/" ++ toString (v - MAX_GATES)
    else if cp then
      match h : ins.getD 0 none with
      | some p => formatGateName p
      | none => "???"
    else toString x ++ "x" ++ toString j
termination_by m => sizeOf m
decreasing_by
  simp only [MemGate.mk.sizeOf_spec]
  have := sizeOf_lt_of_getD h
  omega

/-- One instruction line of the micro-op stream: the printed row index, the
operand-1 column and label (if the cell records an input there), whether the
instruction has an operand-2 slot (`fanin > 1`) and its column/label, and the
write column. -/
structure MicroInstr : Type where
  gidx : Int
  op1 : Option (Int × String)
  hasOp2Slot : Bool
  op2 : Option (Int × String)
  writeJdx : Int
deriving DecidableEq

/-- `generate_micro_ops` (`generator/mod.rs:258`), modelled as the list of
instruction lines it writes (headers and the trailing metrics section carry no
per-gate data and are omitted): for each `l in 0..max_asap`, scan the crossbar
in row-major order and emit one instruction per cell whose value is set, that
is not a primary input, not a copy, and whose `asap_level` equals `l`. -/
def generateMicroOps (c : Circuit) (m : Mapping) : List MicroInstr :=
  ((List.range c.maxAsap.toNat).map (fun l => (l : Int))).foldl (fun acc l =>
    (List.range (m.maxIdx.toNat + 1)).foldl (fun acc i =>
      (List.range (m.maxJdx.toNat + 1)).foldl (fun acc j =>
        let cell := m.crossbar i j
        if cell.value = -1 ∨ cell.value ≥ MAX_GATES ∨ cell.is_copy = true ∨
            cell.asap_level ≠ l then acc
        else
          acc ++ [{ gidx := cell.idx,
                    op1 := (cell.inp 0).map (fun p =>
                      (p.jdx, formatGateName p)),
                    hasOp2Slot := cell.fanin > 1,
                    op2 :=
                      if cell.fanin > 1 then
                        (cell.inp 1).map (fun p => (p.jdx, formatGateName p))
                      else none,
                    writeJdx := cell.jdx }]) acc) acc) []

end Delphi

/-! ## Concrete runs and claim theorems -/

namespace Delphi

/-- Executable acyclicity check on the gate DAG: repeatedly delete every gate
none of whose inputs is produced by a remaining gate; the circuit is acyclic
iff all gates are eventually deleted. -/
def acyclicGo (c : Circuit) : Nat → List Nat → Bool
  | _, [] => true
  | 0, _ :: _ => false
  | fuel + 1, rem =>
    let rem' := rem.filter (fun i =>
      (List.range (gateAt c i).fanin).any (fun k =>
        rem.any (fun j => (gateAt c j).out = (gateAt c i).inp k)))
    if rem'.length = rem.length then false else acyclicGo c fuel rem'

/-- A circuit is acyclic when elimination deletes every gate. -/
def acyclicB (c : Circuit) : Bool :=
  acyclicGo c c.numGates (List.range c.numGates)

/-- A three-gate NOT chain listed consumers-first
(netlist `n3 = n2` / `n2 = n1` / `n1 = x1`). -/
def revChainCircuit : Circuit :=
  ((parseNetlist ["n3 = n2", "n2 = n1", "n1 = x1"]).map findPrimaryInputs).getD
    Circuit.new

/-- **C1.** After compute_asap_schedule runs on an acyclic circuit, every gate
is claimed to carry `asap_level ≠ -1` equal to one plus the maximum operand
level.  The code increments its termination counter `count` each time a gate's
operands are available — also for gates that were already assigned — so on the
acyclic three-gate chain `n3 = n2`, `n2 = n1`, `n1 = x1` the `while count <
num_gates` loop exits (flag `true`) after re-counting the two low gates, while
the gate producing `n3` is left with `asap_level = -1`. -/
theorem c1_asap_leaves_gate_unassigned :
    (computeAsapSchedule revChainCircuit 10).2 = true ∧
    acyclicB revChainCircuit = true ∧
    (gateAt (computeAsapSchedule revChainCircuit 10).1 0).out = 3 ∧
    (gateAt (computeAsapSchedule revChainCircuit 10).1 0).asap_level = -1 := by
  decide

/-- The parsed single-NOR netlist `n3 = x1 + x2` after `find_primary_inputs`. -/
def singleNorCircuit : Circuit :=
  ((parseNetlist ["n3 = x1 + x2"]).map findPrimaryInputs).getD Circuit.new

/-- `singleNorCircuit` after ASAP scheduling. -/
def singleNorAsap : Circuit := (computeAsapSchedule singleNorCircuit 10).1

/-- **C2 counterexample.** The claim says `num_inputs = 2` and a naive
crossbar of one row and three columns (`max_jdx = 2`).  In fact
`find_primary_inputs` sets `num_inputs = max_index + 1 = 3` (the unused index
`0` counts), so the naive mapping places three primary-input cells and the one
gate cell, ending with `max_jdx = 3`. -/
theorem c2_single_nor_counterexample :
    ¬ (singleNorCircuit.numInputs = 2 ∧
       (createNaiveMapping singleNorAsap).2.maxJdx = 2) := by
  decide

/-- **C2 (amended).** Parsing `n3 = x1 + x2` yields exactly one two-input NOR;
`find_primary_inputs` sets `num_inputs = 3` (one more than the highest primary
input index, including the unused index 0); ASAP scheduling terminates with
`max_asap = 1`; the naive mapping occupies one row (`max_idx = 0`) of four
columns (`max_jdx = 3`: three primary-input cells and one gate cell). -/
theorem c2_single_nor_amended :
    singleNorCircuit.numGates = 1 ∧
    (gateAt singleNorCircuit 0).fanin = 2 ∧
    (gateAt singleNorCircuit 0).inp 0 = 8001 ∧
    (gateAt singleNorCircuit 0).inp 1 = 8002 ∧
    singleNorCircuit.numInputs = 3 ∧
    (computeAsapSchedule singleNorCircuit 10).2 = true ∧
    singleNorAsap.maxAsap = 1 ∧
    (createNaiveMapping singleNorAsap).2.maxIdx = 0 ∧
    (createNaiveMapping singleNorAsap).2.maxJdx = 3 := by
  decide

/-- **C3 counterexample.** On the line `n5 = n4 + x1` the claim's textual
right-hand order would give `[5, 4, 8001]`; the code scans all `xN` captures
before all `nN` captures and returns `[5, 8001, 4]`. -/
theorem c3_extract_order_counterexample :
    extractVariables "n5 = n4 + x1" = [5, 8001, 4] ∧
    extractVariables "n5 = n4 + x1" ≠ [5, 4, 8001] := by
  decide

end Delphi

namespace Delphi

/-- The variable-extraction order as the amended claim states it: the
left-hand side's first `nN` token, then the right-hand side's `xN` tokens in
textual order re-encoded as `MAX_GATES + N`, then the right-hand side's `nN`
tokens in textual order. -/
def extractVariablesAmendedOrder (line : String) : List Int :=
  let cs := line.toList
  if countVariables cs = 0 then []
  else
    match splitAtEq cs with
    | none => []
    | some (leftSide, rightSide) =>
      ((scanVars 'n' leftSide).head?.map (fun v => (v : Int))).toList
        ++ (scanVars 'x' rightSide).map (fun n => MAX_GATES + (n : Int))
        ++ (scanVars 'n' rightSide).map (fun n => (n : Int))

/-- **C3 (amended).** For every equation line the extraction returns the
left-hand side's first `nN` variable, then all right-hand `xN` tokens in
textual order as `MAX_GATES + N`, then all right-hand `nN` tokens in textual
order as `N` — x-captures before n-captures, not interleaved textually. -/
theorem c3_extract_order_amended (line : String) :
    extractVariables line = extractVariablesAmendedOrder line := by
  by_cases h0 : countVariables line.toList = 0
  · have h0d : countVariables line.data = 0 := h0
    simp [extractVariables, extractVariablesL, extractVariablesAmendedOrder,
      h0d]
  · simp only [extractVariables, extractVariablesL,
      extractVariablesAmendedOrder, if_neg h0]
    cases hsp : splitAtEq line.toList with
    | none => rfl
    | some pr =>
      obtain ⟨l, r⟩ := pr
      cases hn : scanVars 'n' l <;>
        simp [hn, Option.toList]

/-- **C8.** `generate_micro_ops` iterates `for l in 0..max_asap`, so the cells
of level `max_asap` itself are never visited: on the single-NOR circuit
(`max_asap = 1`) the one NOR cell — at `(0,3)`, value `3`, not a primary
input, not a copy, `asap_level = 1` — produces no instruction line at all,
where the claim requires exactly one. -/
theorem c8_top_level_instructions_missing :
    generateMicroOps (createNaiveMapping singleNorAsap).1
        (createNaiveMapping singleNorAsap).2 = [] ∧
    (createNaiveMapping singleNorAsap).1.maxAsap = 1 ∧
    ((createNaiveMapping singleNorAsap).2.crossbar 0 3).asap_level = 1 ∧
    ((createNaiveMapping singleNorAsap).2.crossbar 0 3).is_copy = false ∧
    ((createNaiveMapping singleNorAsap).2.crossbar 0 3).value = 3 ∧
    ((createNaiveMapping singleNorAsap).2.crossbar 0 3).fanin = 2 := by
  decide

/-- Four gates: `n1 = NOR(x1,x2)`, `n2 = NOT(n1)`, `n3 = NOR(x3,x4)`,
`n4 = NOR(x5,x6)`, scheduled through ASAP and ALAP. -/
def fourGateCircuit : Circuit :=
  ((parseNetlist ["n1 = x1 + x2", "n2 = n1", "n3 = x3 + x4",
    "n4 = x5 + x6"]).map findPrimaryInputs).getD Circuit.new

/-- `fourGateCircuit` after ASAP and ALAP scheduling. -/
def fourGateSched : Circuit :=
  (computeAlapSchedule (computeAsapSchedule fourGateCircuit 20).1 20).1

/-- **C9.** `list_schedule_possible` re-counts already-assigned gates toward
both the completion count `ngates` and the per-pass cap `gates_in_level`: on
the four-gate circuit the candidate `max_gates_per_level = 2` is accepted
(`max_list = 2 = max_asap`), yet the gates producing `n3` and `n4` still have
`list_level = -1`, contradicting the claim that acceptance requires every gate
to be assigned. -/
theorem c9_accepts_incomplete_schedule :
    (computeAsapSchedule fourGateCircuit 20).2 = true ∧
    (computeAlapSchedule (computeAsapSchedule fourGateCircuit 20).1 20).2
      = true ∧
    (computeListSchedule fourGateSched 40).2 = some true ∧
    (computeListSchedule fourGateSched 40).1.maxList = 2 ∧
    fourGateSched.maxAsap = 2 ∧
    (gateAt (computeListSchedule fourGateSched 40).1 2).out = 3 ∧
    (gateAt (computeListSchedule fourGateSched 40).1 2).list_level = -1 ∧
    (gateAt (computeListSchedule fourGateSched 40).1 3).out = 4 ∧
    (gateAt (computeListSchedule fourGateSched 40).1 3).list_level = -1 := by
  decide

end Delphi

namespace Delphi

/-- The cyclic two-gate netlist `n1 = n2` / `n2 = n1`. -/
def cyclicCircuit : Circuit :=
  ((parseNetlist ["n1 = n2", "n2 = n1"]).map findPrimaryInputs).getD
    Circuit.new

/-- On the cyclic circuit an ASAP pass assigns nothing and leaves the state
untouched. -/
theorem cyclic_asap_pass_stuck : asapPass cyclicCircuit 0 = (cyclicCircuit, 0) :=
  rfl

/-- The ASAP fixed-point loop never exits on the cyclic circuit, whatever the
number of passes. -/
theorem cyclic_asap_go_stuck (fuel : Nat) :
    asapGo fuel cyclicCircuit 0 = (cyclicCircuit, false) := by
  induction fuel with
  | zero => rfl
  | succ fuel ih =>
    have h2 : cyclicCircuit.numGates = 2 := by decide
    unfold asapGo
    rw [if_neg (by omega)]
    rw [cyclic_asap_pass_stuck]
    exact ih

/-- **C5 counterexample.**  On the cyclic netlist `n1 = n2` / `n2 = n1` the
`while count < num_gates` loop of `compute_asap_schedule` never terminates —
there is no number of passes after which it has exited — so no `Cycle` error
is ever produced (the code has no such detection or error path at all). -/
theorem c5_no_cycle_error_counterexample :
    ¬ ∃ fuel : Nat, (computeAsapSchedule cyclicCircuit fuel).2 = true := by
  intro ⟨fuel, hf⟩
  rw [computeAsapSchedule, cyclic_asap_go_stuck] at hf
  exact Bool.false_ne_true hf

/-- **C5 (amended).**  On a netlist containing a combinational cycle,
`compute_asap_schedule` makes no progress and diverges (every pass leaves the
state unchanged, so the loop never exits) instead of failing with an error;
only the list-scheduling feasibility helper detects the no-progress pass,
returning infeasibility (`false`). -/
theorem c5_asap_diverges_on_cycle :
    (∀ fuel : Nat, (computeAsapSchedule cyclicCircuit fuel).2 = false) ∧
    (listSchedulePossible cyclicCircuit 1 2 10).2 = some false := by
  constructor
  · intro fuel
    rw [computeAsapSchedule, cyclic_asap_go_stuck]
  · decide

/-- A depth-13 NOT chain `n1 = x1`, `n{i+1} = n{i}`, with primary-output taps
`n10{i} = n{i}` for `i = 1..12`, listed chain-first.  Every gate is labeled in
the very first ALAP pass (each tap is a primary output initialised to level
1), so the `while` loop exits immediately and the ten fixed extra passes are
too few to propagate the true depth-13 levels. -/
def deepChainCircuit : Circuit :=
  ((parseNetlist ["n1 = x1", "n2 = n1", "n3 = n2", "n4 = n3", "n5 = n4",
    "n6 = n5", "n7 = n6", "n8 = n7", "n9 = n8", "n10 = n9", "n11 = n10",
    "n12 = n11", "n13 = n12",
    "n101 = n1", "n102 = n2", "n103 = n3", "n104 = n4", "n105 = n5",
    "n106 = n6", "n107 = n7", "n108 = n8", "n109 = n9", "n110 = n10",
    "n111 = n11", "n112 = n12"]).map findPrimaryInputs).getD Circuit.new

/-- `deepChainCircuit` after ASAP scheduling. -/
def deepChainAsap : Circuit := (computeAsapSchedule deepChainCircuit 5).1

/-- `deepChainCircuit` after ASAP and ALAP scheduling. -/
def deepChainAlap : Circuit := (computeAlapSchedule deepChainAsap 5).1

set_option maxRecDepth 200000

/-- **C6.**  Both schedules terminate on this acyclic circuit, yet the gate
producing `n2` ends with `alap_level = 1 < 2 = asap_level`, i.e. negative
mobility: the ten extra ALAP passes (`for _ in 0..10`, commented "to ensure
convergence") do not reach convergence at depth 13, so the claimed invariant
`alap_level ≥ asap_level` fails. -/
theorem c6_alap_below_asap :
    (computeAsapSchedule deepChainCircuit 5).2 = true ∧
    (computeAlapSchedule deepChainAsap 5).2 = true ∧
    acyclicB deepChainCircuit = true ∧
    (gateAt deepChainAlap 1).out = 2 ∧
    (gateAt deepChainAlap 1).asap_level = 2 ∧
    (gateAt deepChainAlap 1).alap_level = 1 := by
  decide

end Delphi

namespace Delphi

/-- Fold invariance: a property preserved by every step holds of the fold. -/
theorem foldl_inv {α σ : Type _} {P : σ → Prop} {f : σ → α → σ}
    (hf : ∀ s a, P s → P (f s a)) :
    ∀ (l : List α) (s : σ), P s → P (l.foldl f s) := by
  intro l
  induction l with
  | nil => intro s hs; exact hs
  | cons a l ih => intro s hs; exact ih (f s a) (hf s a hs)

/-- Writing back an element that is already there leaves a list unchanged. -/
theorem list_set_of_getElem? {β : Type _} {L : List β} {i : Nat} {x : β}
    (h : L[i]? = some x) : L.set i x = L := by
  apply List.ext_getElem?
  intro k
  rcases eq_or_ne i k with rfl | hne
  · rw [List.getElem?_set_self', h]
    rfl
  · exact List.getElem?_set_ne hne

/-- Replacing a gate by one with the same `asap_level` does not change the
`asap_level` image of the gate list. -/
theorem map_asap_set {l : List TableGate} {i : Nat} {g : TableGate}
    (h : g.asap_level = (l.getD i TableGate.default).asap_level) :
    (l.set i g).map (fun x => x.asap_level) = l.map (fun x => x.asap_level) := by
  rcases Nat.lt_or_ge i l.length with hi | hi
  · apply List.ext_getElem?
    intro k
    rcases eq_or_ne i k with rfl | hne
    · rw [List.getElem?_map, List.getElem?_set_self', List.getElem?_map]
      have hsome : l[i]? = some l[i] := List.getElem?_eq_getElem hi
      have hg : g.asap_level = l[i].asap_level := by
        rw [h, List.getD_eq_getElem?_getD, hsome]
        rfl
      rw [hsome]
      simp [Function.const, hg]
    · rw [List.getElem?_map, List.getElem?_set_ne hne, ← List.getElem?_map]
  · rw [List.set_eq_of_length_le hi]

end Delphi

namespace Delphi

/-- The naive placement loop only rewrites `gate_map` fields, so the
`asap_level` image of the gate table is untouched. -/
theorem naiveStep_map_asap (s : Circuit × Mapping) (i : Nat) :
    (naiveStep s i).1.gates.map (fun x => x.asap_level)
      = s.1.gates.map (fun x => x.asap_level) := by
  unfold naiveStep
  exact map_asap_set rfl

/-- The compact placement loop only rewrites `gate_map` fields, so the
`asap_level` image of the gate table is untouched. -/
theorem compactStep_map_asap (s : CState) (i : Nat) :
    (compactStep s i).c.gates.map (fun x => x.asap_level)
      = s.c.gates.map (fun x => x.asap_level) := by
  unfold compactStep
  dsimp only
  split
  · exact map_asap_set rfl
  · split
    · exact map_asap_set rfl
    · exact map_asap_set rfl

end Delphi

namespace Delphi

/-- Comparison by `asap_level` used by the mappers' sort. -/
instance : IsTotal TableGate (fun a b => a.asap_level ≤ b.asap_level) :=
  ⟨fun a b => Int.le_total a.asap_level b.asap_level⟩

instance : IsTrans TableGate (fun a b => a.asap_level ≤ b.asap_level) :=
  ⟨fun _ _ _ h1 h2 => le_trans h1 h2⟩

/-- After `sortGatesByAsap` the gate table is sorted by `asap_level`. -/
theorem sortGatesByAsap_pairwise (c : Circuit) :
    List.Pairwise (fun a b : TableGate => a.asap_level ≤ b.asap_level)
      (sortGatesByAsap c).gates :=
  List.sorted_insertionSort _ c.gates

/-- A gate list whose `asap_level` image coincides with that of a sorted list
is itself sorted by `asap_level`. -/
theorem pairwise_of_map_asap_eq {l l' : List TableGate}
    (h : l'.map (fun x => x.asap_level) = l.map (fun x => x.asap_level))
    (hp : List.Pairwise (fun a b : TableGate => a.asap_level ≤ b.asap_level) l) :
    List.Pairwise (fun a b : TableGate => a.asap_level ≤ b.asap_level) l' := by
  have h1 : List.Pairwise (fun a b : Int => a ≤ b)
      (l.map (fun x => x.asap_level)) := List.pairwise_map.mpr hp
  rw [← h] at h1
  exact List.pairwise_map.mp h1

/-- The gate table after `create_naive_mapping` is sorted by `asap_level`. -/
theorem createNaiveMapping_pairwise (c : Circuit) :
    List.Pairwise (fun a b : TableGate => a.asap_level ≤ b.asap_level)
      (createNaiveMapping c).1.gates := by
  unfold createNaiveMapping
  dsimp only
  split
  · exact sortGatesByAsap_pairwise _
  · set cS := sortGatesByAsap (resetGateMaps c) with hcS
    apply pairwise_of_map_asap_eq (l := cS.gates)
    · refine foldl_inv (P := fun s : Circuit × Mapping =>
        s.1.gates.map (fun x => x.asap_level)
          = cS.gates.map (fun x => x.asap_level)) ?_ _ _ rfl
      intro s a hs
      rw [naiveStep_map_asap]
      exact hs
    · exact sortGatesByAsap_pairwise _

/-- The gate table after `create_compact_mapping` is sorted by `asap_level`. -/
theorem createCompactMapping_pairwise (c : Circuit) :
    List.Pairwise (fun a b : TableGate => a.asap_level ≤ b.asap_level)
      (createCompactMapping c).1.gates := by
  unfold createCompactMapping
  dsimp only
  split
  · exact sortGatesByAsap_pairwise _
  · set cS := sortGatesByAsap (resetGateMaps c) with hcS
    apply pairwise_of_map_asap_eq (l := cS.gates)
    · have hpi : ∀ st : CState,
          st.c.gates.map (fun x => x.asap_level)
            = cS.gates.map (fun x => x.asap_level) →
          ((List.range cS.numGates).foldl compactStep st).c.gates.map
            (fun x => x.asap_level)
            = cS.gates.map (fun x => x.asap_level) := by
        intro st hst
        refine foldl_inv (P := fun s : CState =>
          s.c.gates.map (fun x => x.asap_level)
            = cS.gates.map (fun x => x.asap_level)) ?_ _ _ hst
        intro s a hs
        rw [compactStep_map_asap]
        exact hs
      refine hpi _ ?_
      refine foldl_inv (P := fun s : CState =>
        s.c.gates.map (fun x => x.asap_level)
          = cS.gates.map (fun x => x.asap_level)) ?_ _ _ rfl
      intro s a hs
      exact hs
    · exact sortGatesByAsap_pairwise _

end Delphi

namespace Delphi

/-- A per-index rewrite fold on a bare gate list (the shape shared by the
mappers' `gate_map` reset loop and the ALAP inversion loop). -/
def gateListFold (f : TableGate → TableGate) (n : Nat) (l : List TableGate) :
    List TableGate :=
  (List.range n).foldl (fun gs i => gs.set i (f (gs.getD i TableGate.default))) l

/-- A per-index circuit fold is the corresponding fold on its gate list. -/
theorem circuitFold_eq_listFold (f : TableGate → TableGate) (L : List Nat) :
    ∀ c : Circuit, L.foldl (fun cc i => setGate cc i (f (gateAt cc i))) c
      = { c with
          gates := L.foldl
            (fun gs i => gs.set i (f (gs.getD i TableGate.default)))
            c.gates } := by
  induction L with
  | nil => intro c; rfl
  | cons i L ih =>
    intro c
    simp only [List.foldl_cons]
    exact ih (setGate c i (f (gateAt c i)))

/-- Pointwise description of the per-index fold. -/
theorem gateListFold_getElem? (f : TableGate → TableGate) (n : Nat)
    (l : List TableGate) (k : Nat) :
    (gateListFold f n l)[k]? = if k < n then l[k]?.map f else l[k]? := by
  induction n with
  | zero =>
    simp [gateListFold, List.range_zero]
  | succ n ih =>
    unfold gateListFold
    rw [List.range_succ, List.foldl_append]
    simp only [List.foldl_cons, List.foldl_nil]
    rw [show ∀ l', List.foldl (fun gs i => gs.set i
      (f (gs.getD i TableGate.default))) l'
        (List.range n) = gateListFold f n l' from fun _ => rfl]
    rcases eq_or_ne k n with rfl | hne
    · rw [List.getElem?_set_self']
      rw [if_pos (Nat.lt_succ_self _)]
      have hk : ¬ k < k := Nat.lt_irrefl k
      have hfold := ih
      rw [if_neg hk] at hfold
      rw [hfold]
      cases hlk : l[k]? with
      | none => rfl
      | some g =>
        have : (gateListFold f k l).getD k TableGate.default = g := by
          rw [List.getD_eq_getElem?_getD, hfold, hlk]
          rfl
        rw [this]
        rfl
    · rw [List.getElem?_set_ne (fun h => hne h.symm), ih]
      rcases Nat.lt_trichotomy k n with hlt | rfl | hgt
      · rw [if_pos hlt, if_pos (Nat.lt_succ_of_lt hlt)]
      · exact absurd rfl hne
      · rw [if_neg (Nat.lt_asymm hgt), if_neg (by omega)]

/-- `resetGateMaps` as a pure fold on the underlying gate list. -/
theorem resetGateMaps_eq_listFold (c : Circuit) :
    resetGateMaps c = { c with
      gates := gateListFold (fun g => { g with gate_map := none })
        c.numGates c.gates } :=
  circuitFold_eq_listFold (fun g => { g with gate_map := none })
    (List.range c.numGates) c

/-- Resetting the `gate_map` references twice is the same as doing it once. -/
theorem resetGateMaps_idem (c : Circuit) :
    resetGateMaps (resetGateMaps c) = resetGateMaps c := by
  rw [resetGateMaps_eq_listFold c, resetGateMaps_eq_listFold]
  dsimp only
  congr 1
  apply List.ext_getElem?
  intro k
  rw [gateListFold_getElem?
    (fun g => { g with gate_map := none }) c.numGates _ k,
    gateListFold_getElem? (fun g => { g with gate_map := none }) c.numGates
      c.gates k]
  split_ifs
  · rw [Option.map_map]
    rfl
  · rfl

end Delphi

namespace Delphi

/-- The naive mapper's output does not depend on incoming `gate_map` values:
it resets them first. -/
theorem createNaiveMapping_reset_first (c : Circuit) :
    createNaiveMapping (resetGateMaps c) = createNaiveMapping c := by
  unfold createNaiveMapping
  rw [resetGateMaps_idem]

/-- The compact mapper's output does not depend on incoming `gate_map` values:
it resets them first. -/
theorem createCompactMapping_reset_first (c : Circuit) :
    createCompactMapping (resetGateMaps c) = createCompactMapping c := by
  unfold createCompactMapping
  rw [resetGateMaps_idem]

/-- Two NOT gates whose `asap_level` order disagrees with their `list_time`
order. -/
def mixedOrderCircuit : Circuit :=
  { Circuit.new with
    gates :=
      [{ TableGate.default with
          fanin := 1, inputs := [8001, -1, -1, -1, -1], out := 1,
          asap_level := 2, list_time := 1 },
       { TableGate.default with
          fanin := 1, inputs := [8001, -1, -1, -1, -1], out := 2,
          asap_level := 1, list_time := 2 }],
    numGates := 2, numInputs := 2 }

/-- **C4 counterexample.** `create_compact_mapping` sorts by `asap_level`, not
`list_time`: on two gates with opposite `asap_level`/`list_time` orders the
mapper returns the gate table in order `[out 2, out 1]` (ascending
`asap_level`), while a stable sort by `list_time` (the claim) keeps
`[out 1, out 2]`. -/
theorem c4_compact_sorts_by_asap_counterexample :
    ((createCompactMapping mixedOrderCircuit).1.gates.map
        (fun g => g.out)) = [2, 1] ∧
    ((mixedOrderCircuit.gates.insertionSort
        (fun a b => a.list_time ≤ b.list_time)).map (fun g => g.out))
      = [1, 2] := by
  decide

/-- **C4 (amended).** Both `create_naive_mapping` and
`create_compact_mapping` first sort the gate table by `asap_level` (the
resulting gate table is ascending in `asap_level` for every input circuit)
and both reset every gate's `gate_map` to `None` before placing cells (their
output is insensitive to the incoming `gate_map` values). -/
theorem c4_mappers_sort_by_asap_and_reset (c : Circuit) :
    List.Pairwise (fun a b : TableGate => a.asap_level ≤ b.asap_level)
      (createNaiveMapping c).1.gates ∧
    List.Pairwise (fun a b : TableGate => a.asap_level ≤ b.asap_level)
      (createCompactMapping c).1.gates ∧
    createNaiveMapping (resetGateMaps c) = createNaiveMapping c ∧
    createCompactMapping (resetGateMaps c) = createCompactMapping c :=
  ⟨createNaiveMapping_pairwise c, createCompactMapping_pairwise c,
   createNaiveMapping_reset_first c, createCompactMapping_reset_first c⟩

end Delphi

namespace Delphi

/-- Fold invariance with membership of the step element. -/
theorem foldl_inv_mem {α σ : Type _} {P : σ → Prop} {f : σ → α → σ} :
    ∀ (l : List α), (∀ s a, a ∈ l → P s → P (f s a)) →
      ∀ s, P s → P (l.foldl f s)
  | [], _, _, hs => hs
  | a :: l, hf, s, hs =>
    foldl_inv_mem l (fun s b hb => hf s b (List.mem_cons_of_mem a hb))
      (f s a) (hf s a (List.mem_cons_self a l) hs)

/-- Forget a gate's `alap_level` (the only field the ALAP passes modify). -/
def eraseAlap (g : TableGate) : TableGate := { g with alap_level := 0 }

/-- Same gate count, and gates equal up to `alap_level`. -/
def sameShape (c c' : Circuit) : Prop :=
  c'.numGates = c.numGates ∧ c'.gates.length = c.gates.length ∧
  ∀ i, eraseAlap (gateAt c' i) = eraseAlap (gateAt c i)

theorem sameShape_refl (c : Circuit) : sameShape c c := ⟨rfl, rfl, fun _ => rfl⟩

theorem sameShape_out {c c' : Circuit} (h : sameShape c c') (i : Nat) :
    (gateAt c' i).out = (gateAt c i).out := by
  have he := congrArg TableGate.out (h.2.2 i)
  exact he

theorem sameShape_fanin {c c' : Circuit} (h : sameShape c c') (i : Nat) :
    (gateAt c' i).fanin = (gateAt c i).fanin := by
  have he := congrArg TableGate.fanin (h.2.2 i)
  exact he

theorem sameShape_inp {c c' : Circuit} (h : sameShape c c') (i k : Nat) :
    (gateAt c' i).inp k = (gateAt c i).inp k := by
  have he := congrArg (fun g => TableGate.inp g k) (h.2.2 i)
  exact he

/-- `is_po` only looks at gate shapes, so it transfers along `sameShape`. -/
theorem isPo_congr {c c' : Circuit} (h : sameShape c c') (w : Int) :
    isPo c' w = isPo c w := by
  unfold isPo
  rw [h.1]
  apply congrArg
  apply congrArg (List.any (List.range c.numGates))
  funext i
  rw [sameShape_fanin h i]
  apply congrArg (List.any (List.range (gateAt c i).fanin))
  funext j
  rw [sameShape_inp h i j]

/-- Reading off a gate other than the one written. -/
theorem gateAt_setGate_ne {c : Circuit} {i j : Nat} {g : TableGate}
    (h : j ≠ i) : gateAt (setGate c i g) j = gateAt c j := by
  unfold gateAt setGate
  dsimp only
  rw [List.getD_eq_getElem?_getD, List.getD_eq_getElem?_getD,
    List.getElem?_set_ne (fun e => h e.symm)]

/-- Rewriting a gate's `alap_level` in place does not change its erasure. -/
theorem eraseAlap_setGate_self {c : Circuit} {i : Nat} {v : Int} :
    eraseAlap (gateAt (setGate c i
        { gateAt c i with alap_level := v }) i)
      = eraseAlap (gateAt c i) := by
  unfold gateAt setGate
  dsimp only
  rw [List.getD_eq_getElem?_getD, List.getElem?_set_self']
  cases h : c.gates[i]? with
  | none =>
    have hg : c.gates.getD i TableGate.default = TableGate.default := by
      rw [List.getD_eq_getElem?_getD, h]
      rfl
    simp only [Functor.map, Option.map_none', Option.getD_none]
    rw [hg]
  | some g =>
    simp only [Functor.map, Option.map_some', Option.getD_some,
      Function.const]
    rfl

end Delphi

namespace Delphi

/-- `update_alap c index _` rewrites at most gate `index`, and only its
`alap_level`. -/
def AlapOnlyAt (idx : Nat) (c c' : Circuit) : Prop :=
  c'.numGates = c.numGates ∧ c'.gates.length = c.gates.length ∧
  (∀ j, j ≠ idx → gateAt c' j = gateAt c j) ∧
  eraseAlap (gateAt c' idx) = eraseAlap (gateAt c idx)

theorem alapOnly_refl (idx : Nat) (c : Circuit) : AlapOnlyAt idx c c :=
  ⟨rfl, rfl, fun _ _ => rfl, rfl⟩

theorem alapOnly_write {idx : Nat} {c cc : Circuit} (h : AlapOnlyAt idx c cc)
    (v : Int) :
    AlapOnlyAt idx c (setGate cc idx { gateAt cc idx with alap_level := v }) := by
  refine ⟨h.1, ?_, ?_, ?_⟩
  · show (cc.gates.set idx _).length = c.gates.length
    rw [List.length_set]
    exact h.2.1
  · intro j hj
    rw [gateAt_setGate_ne hj]
    exact h.2.2.1 j hj
  · rw [eraseAlap_setGate_self]
    exact h.2.2.2

theorem updateAlap_alapOnly (c : Circuit) (idx : Nat) (w : Int) :
    AlapOnlyAt idx c (updateAlap c idx w) := by
  unfold updateAlap
  refine foldl_inv ?_ _ _ (alapOnly_refl idx c)
  intro s j hs
  refine foldl_inv ?_ _ _ hs
  intro s' k hs'
  dsimp only
  split_ifs with h1 h2
  · exact alapOnly_write hs' _
  · exact hs'
  · exact hs'

theorem sameShape_after_alapOnly {c0 c cc : Circuit} {idx : Nat}
    (hss : sameShape c0 c) (h : AlapOnlyAt idx c cc) : sameShape c0 cc := by
  refine ⟨h.1.trans hss.1, h.2.1.trans hss.2.1, ?_⟩
  intro i
  rcases eq_or_ne i idx with rfl | hne
  · exact h.2.2.2.trans (hss.2.2 i)
  · rw [h.2.2.1 i hne]
    exact hss.2.2 i

/-- If every consumer of `w` is unlabeled, `update_alap` is the identity. -/
theorem updateAlap_no_labeled_consumer {c : Circuit} {i0 : Nat} {w : Int}
    (hq : ∀ j, j < c.numGates → ∀ k, k < (gateAt c j).fanin →
      (gateAt c j).inp k = w → (gateAt c j).alap_level = -1) :
    updateAlap c i0 w = c := by
  unfold updateAlap
  refine foldl_inv_mem (P := fun s => s = c) _ ?_ _ rfl
  intro s j hj hs
  subst hs
  refine foldl_inv_mem (P := fun s' => s' = s) _ ?_ _ rfl
  intro s' k hk hs'
  subst hs'
  dsimp only
  have hjlt : j < s'.numGates := List.mem_range.mp hj
  have hklt : k < (gateAt s' j).fanin := List.mem_range.mp hk
  split_ifs with h1 h2
  · exact absurd (hq j hjlt k hklt h1.1.symm) h1.2
  · rfl
  · rfl

end Delphi

namespace Delphi

/-- Unfolding of the code's `is_po` test. -/
theorem isPo_eq_true_iff {c : Circuit} {w : Int} :
    isPo c w = true ↔
      ∀ i, i < c.numGates → ∀ k, k < (gateAt c i).fanin →
        (gateAt c i).inp k ≠ w := by
  unfold isPo
  simp only [Bool.not_eq_true', Bool.not_eq_true, List.any_eq_false,
    List.mem_range, decide_eq_true_eq]

/-- The PO-initialisation fold never touches a non-PO gate's level. -/
theorem alapInit_nonpo {c : Circuit} {i0 : Nat}
    (hnpo : isPo c (gateAt c i0).out = false) :
    sameShape c (alapInit c) ∧
      (gateAt (alapInit c) i0).alap_level = (gateAt c i0).alap_level := by
  unfold alapInit
  refine foldl_inv (P := fun cc => sameShape c cc ∧
    (gateAt cc i0).alap_level = (gateAt c i0).alap_level) ?_ _ _
    ⟨sameShape_refl c, rfl⟩
  intro s i hs
  dsimp only
  split_ifs with hpo
  · constructor
    · exact sameShape_after_alapOnly hs.1 (alapOnly_write (alapOnly_refl i s) 1)
    · rcases eq_or_ne i0 i with rfl | hne
      · rw [isPo_congr hs.1, sameShape_out hs.1] at hpo
        rw [hnpo] at hpo
        exact absurd hpo (Bool.false_ne_true)
      · rw [gateAt_setGate_ne hne]
        exact hs.2
  · exact hs

/-- Once set to `1`, a PO gate's level survives the rest of the
PO-initialisation fold. -/
theorem alapInit_po_tail {c : Circuit} {i0 : Nat} :
    ∀ (L : List Nat) (cc : Circuit), sameShape c cc →
      (gateAt cc i0).alap_level = 1 →
      sameShape c (L.foldl (fun cc i =>
        if isPo cc (gateAt cc i).out then
          setGate cc i { gateAt cc i with alap_level := 1 } else cc) cc) ∧
      (gateAt (L.foldl (fun cc i =>
        if isPo cc (gateAt cc i).out then
          setGate cc i { gateAt cc i with alap_level := 1 } else cc) cc)
        i0).alap_level = 1 := by
  intro L
  induction L with
  | nil => intro cc hss h1; exact ⟨hss, h1⟩
  | cons i L ih =>
    intro cc hss h1
    simp only [List.foldl_cons]
    by_cases hpo : isPo cc (gateAt cc i).out
    · rw [if_pos hpo]
      refine ih _ (sameShape_after_alapOnly hss
        (alapOnly_write (alapOnly_refl i cc) 1)) ?_
      rcases eq_or_ne i0 i with rfl | hne
      · show (gateAt (setGate cc i0 _) i0).alap_level = 1
        unfold gateAt setGate
        dsimp only
        rw [List.getD_eq_getElem?_getD, List.getElem?_set_self']
        cases hg : cc.gates[i0]? with
        | none =>
          exfalso
          have : (gateAt cc i0).alap_level = -1 := by
            unfold gateAt
            rw [List.getD_eq_getElem?_getD, hg]
            rfl
          rw [h1] at this
          exact absurd this (by decide)
        | some g =>
          simp only [Functor.map, Option.map_some', Option.getD_some,
            Function.const]
      · rw [gateAt_setGate_ne hne]
        exact h1
    · rw [if_neg hpo]
      exact ih _ hss h1

/-- The PO-initialisation fold sets a PO gate's level to `1`. -/
theorem alapInit_po {c : Circuit} {i0 : Nat} (hi : i0 < c.numGates)
    (hlen : i0 < c.gates.length)
    (hpo : isPo c (gateAt c i0).out = true) :
    sameShape c (alapInit c) ∧ (gateAt (alapInit c) i0).alap_level = 1 := by
  unfold alapInit
  obtain ⟨L1, L2, hsplit⟩ := List.append_of_mem (List.mem_range.mpr hi)
  rw [hsplit, List.foldl_append, List.foldl_cons]
  have hpre : sameShape c (L1.foldl (fun cc i =>
      if isPo cc (gateAt cc i).out then
        setGate cc i { gateAt cc i with alap_level := 1 } else cc) c) := by
    refine foldl_inv (P := sameShape c) ?_ _ _ (sameShape_refl c)
    intro s i hs
    dsimp only
    split_ifs with h
    · exact sameShape_after_alapOnly hs (alapOnly_write (alapOnly_refl i s) 1)
    · exact hs
  set cmid := L1.foldl (fun cc i =>
    if isPo cc (gateAt cc i).out then
      setGate cc i { gateAt cc i with alap_level := 1 } else cc) c with hcmid
  have hpo' : isPo cmid (gateAt cmid i0).out = true := by
    rw [isPo_congr hpre, sameShape_out hpre]
    exact hpo
  rw [if_pos hpo']
  apply alapInit_po_tail
  · exact sameShape_after_alapOnly hpre (alapOnly_write (alapOnly_refl i0 cmid) 1)
  · show (gateAt (setGate cmid i0 _) i0).alap_level = 1
    unfold gateAt setGate
    dsimp only
    rw [List.getD_eq_getElem?_getD, List.getElem?_set_self']
    cases hg : cmid.gates[i0]? with
    | none =>
      exfalso
      have hge : cmid.gates.length ≤ i0 := by
        by_contra hlt
        rw [List.getElem?_eq_getElem (by omega)] at hg
        exact Option.noConfusion hg
      have hlt2 : i0 < cmid.gates.length := by
        rw [hpre.2.1]
        exact hlen
      omega
    | some g =>
      simp only [Functor.map, Option.map_some', Option.getD_some,
        Function.const]

end Delphi

namespace Delphi

/-- The PO-initialisation fold preserves the gate shapes. -/
theorem alapInit_sameShape (c : Circuit) : sameShape c (alapInit c) := by
  unfold alapInit
  refine foldl_inv (P := sameShape c) ?_ _ _ (sameShape_refl c)
  intro s i hs
  dsimp only
  split_ifs with h
  · exact sameShape_after_alapOnly hs (alapOnly_write (alapOnly_refl i s) 1)
  · exact hs

/-- An ALAP pass preserves the gate shapes. -/
theorem alapPass_sameShape {c cc : Circuit} (hs : sameShape c cc) :
    sameShape c (alapPass cc) := by
  unfold alapPass
  refine foldl_inv (P := sameShape c) ?_ _ _ hs
  intro s i hs'
  exact sameShape_after_alapOnly hs' (updateAlap_alapOnly s i (gateAt s i).out)

/-- Any property preserved by `alapPass` holds, together with the labeling
condition, at a successful exit of the ALAP fixed-point loop. -/
theorem alapGo_exit {P : Circuit → Prop} (hP : ∀ cc, P cc → P (alapPass cc)) :
    ∀ (fuel : Nat) (cc : Circuit), P cc → (alapGo fuel cc).2 = true →
      P (alapGo fuel cc).1 ∧ allAlapLabeled (alapGo fuel cc).1 = true := by
  intro fuel
  induction fuel with
  | zero =>
    intro cc hcc hexit
    cases h : allAlapLabeled cc with
    | true =>
      unfold alapGo
      rw [if_pos h]
      exact ⟨hcc, h⟩
    | false =>
      have hc : ¬ (allAlapLabeled cc = true) := by
        rw [h]
        exact Bool.false_ne_true
      unfold alapGo at hexit
      rw [if_neg hc] at hexit
      exact absurd hexit Bool.false_ne_true
  | succ fuel ih =>
    intro cc hcc hexit
    cases h : allAlapLabeled cc with
    | true =>
      unfold alapGo
      rw [if_pos h]
      exact ⟨hcc, h⟩
    | false =>
      have hc : ¬ (allAlapLabeled cc = true) := by
        rw [h]
        exact Bool.false_ne_true
      unfold alapGo at hexit ⊢
      rw [if_neg hc] at hexit ⊢
      exact ih (alapPass cc) (hP cc hcc) hexit

/-- The ten extra passes preserve any pass-invariant. -/
theorem alapExtra_inv {P : Circuit → Prop} (hP : ∀ cc, P cc → P (alapPass cc))
    {cc : Circuit} (hcc : P cc) : P (alapExtra cc) := by
  unfold alapExtra
  refine foldl_inv (P := P) ?_ _ _ hcc
  intro s _ hs
  exact hP s hs

/-- The inversion step of `compute_alap_schedule`: the final `max_alap` and
the inverted level of any in-range gate. -/
theorem alapFinish_spec (c : Circuit) (i0 : Nat) (hi : i0 < c.numGates)
    (hlen : i0 < c.gates.length) :
    (gateAt (alapFinish c) i0).alap_level
      = (alapFinish c).maxAlap - (gateAt c i0).alap_level + 1 := by
  unfold alapFinish
  dsimp only
  set M := List.foldl (fun m i =>
    if (gateAt c i).alap_level > m then (gateAt c i).alap_level else m) 0
    (List.range c.numGates) with hM
  rw [circuitFold_eq_listFold
    (fun g => { g with alap_level := M - g.alap_level + 1 })
    (List.range c.numGates) c]
  unfold gateAt
  dsimp only
  rw [List.getD_eq_getElem?_getD]
  rw [show ∀ l, List.foldl (fun gs i => gs.set i
      ((fun g => { g with alap_level := M - g.alap_level + 1 })
        (gs.getD i TableGate.default))) l (List.range c.numGates)
    = gateListFold (fun g => { g with alap_level := M - g.alap_level + 1 })
        c.numGates l from fun _ => rfl]
  rw [gateListFold_getElem?]
  rw [if_pos hi]
  rw [List.getElem?_eq_getElem hlen]
  simp only [Option.map_some', Option.getD_some]
  have hg : c.gates.getD i0 TableGate.default = c.gates[i0] := by
    rw [List.getD_eq_getElem?_getD, List.getElem?_eq_getElem hlen]
    rfl
  rw [hg]

end Delphi

namespace Delphi

/-- An ALAP pass leaves gate `i0`'s level at `v` when every consumer of its
output wire is `i0` itself with `v = -1` (in particular, when it has no
consumers at all). -/
theorem alapPass_keeps_i0 {c : Circuit} {i0 : Nat} {v : Int}
    (hq0 : ∀ j, j < c.numGates → ∀ k, k < (gateAt c j).fanin →
      (gateAt c j).inp k = (gateAt c i0).out → j = i0 ∧ v = -1) :
    ∀ cc, sameShape c cc ∧ (gateAt cc i0).alap_level = v →
      sameShape c (alapPass cc) ∧ (gateAt (alapPass cc) i0).alap_level = v := by
  intro cc h
  unfold alapPass
  refine foldl_inv
    (P := fun s => sameShape c s ∧ (gateAt s i0).alap_level = v) ?_ _ _ h
  intro s i hs
  rcases eq_or_ne i i0 with rfl | hne
  · have hid : updateAlap s i (gateAt s i).out = s := by
      apply updateAlap_no_labeled_consumer
      intro j hj k hk hin
      have hj0 : j < c.numGates := by
        rw [← hs.1.1]
        exact hj
      have hk0 : k < (gateAt c j).fanin := by
        rw [← sameShape_fanin hs.1 j]
        exact hk
      have hin0 : (gateAt c j).inp k = (gateAt c i).out := by
        rw [← sameShape_inp hs.1 j k, ← sameShape_out hs.1 i]
        exact hin
      obtain ⟨rfl, hv⟩ := hq0 j hj0 k hk0 hin0
      rw [hs.2, hv]
    rw [hid]
    exact hs
  · have ha := updateAlap_alapOnly s i (gateAt s i).out
    refine ⟨sameShape_after_alapOnly hs.1 ha, ?_⟩
    rw [ha.2.2.1 i0 (Ne.symm hne)]
    exact hs.2

/-- A labeled circuit has no `-1` levels below `num_gates`. -/
theorem labeled_at {cc : Circuit} {i : Nat}
    (h : allAlapLabeled cc = true) (hi : i < cc.numGates) :
    (gateAt cc i).alap_level ≠ -1 := by
  unfold allAlapLabeled at h
  have := List.all_eq_true.mp h i (List.mem_range.mpr hi)
  simpa using this

/-- **C10.** After `compute_alap_schedule` terminates on a non-empty circuit
whose levels start unassigned, every gate whose output wire appears in no
other gate's inputs ends with `alap_level` equal to the recorded `max_alap`:
it is initialised to level 1 (a self-loop-only "output" would prevent the
loop from ever exiting), never raised because it has no consumer among the
other gates, and the final inversion maps level 1 to the maximum. -/
theorem c10_po_alap_is_max (c : Circuit) (fuel : Nat) (i0 : Nat)
    (hn : 0 < c.numGates) (hi : i0 < c.numGates)
    (hinit : ∀ i, i < c.numGates → (gateAt c i).alap_level = -1)
    (hpo : ∀ j, j < c.numGates → j ≠ i0 → ∀ k, k < (gateAt c j).fanin →
      (gateAt c j).inp k ≠ (gateAt c i0).out)
    (hexit : (computeAlapSchedule c fuel).2 = true) :
    (gateAt (computeAlapSchedule c fuel).1 i0).alap_level
      = (computeAlapSchedule c fuel).1.maxAlap := by
  unfold computeAlapSchedule at hexit ⊢
  cases hgo : alapGo fuel (alapInit c) with
  | mk cmid b =>
    cases b with
    | false =>
      rw [hgo] at hexit
      exact absurd hexit Bool.false_ne_true
    | true =>
      dsimp only at hexit ⊢
      have hgo2 : (alapGo fuel (alapInit c)).2 = true := by
        rw [hgo]
      have hbase := alapGo_exit (P := sameShape c)
        (fun cc hcc => alapPass_sameShape hcc) fuel (alapInit c)
        (alapInit_sameShape c) hgo2
      rw [hgo] at hbase
      obtain ⟨hshape, hlab⟩ := hbase
      have hlen : i0 < c.gates.length := by
        by_contra hge
        have hge2 : cmid.gates.length ≤ i0 := by
          rw [hshape.2.1]
          omega
        have hdef : gateAt cmid i0 = TableGate.default := by
          unfold gateAt
          exact List.getD_eq_default _ _ hge2
        have hm1 : (gateAt cmid i0).alap_level = -1 := by
          rw [hdef]
          rfl
        exact labeled_at hlab (by rw [hshape.1]; exact hi) hm1
      cases hpoB : isPo c (gateAt c i0).out with
      | true =>
        have hq0 : ∀ j, j < c.numGates → ∀ k, k < (gateAt c j).fanin →
            (gateAt c j).inp k = (gateAt c i0).out → j = i0 ∧ (1 : Int) = -1 := by
          intro j hj k hk hin
          exact absurd hin (isPo_eq_true_iff.mp hpoB j hj k hk)
        have hval := alapGo_exit
          (P := fun s => sameShape c s ∧ (gateAt s i0).alap_level = 1)
          (fun cc hcc => alapPass_keeps_i0 hq0 cc hcc) fuel (alapInit c)
          (alapInit_po hi hlen hpoB) hgo2
        rw [hgo] at hval
        have hext := alapExtra_inv
          (P := fun s => sameShape c s ∧ (gateAt s i0).alap_level = 1)
          (fun cc hcc => alapPass_keeps_i0 hq0 cc hcc) hval.1
        have hfin := alapFinish_spec (alapExtra cmid) i0
          (by rw [hext.1.1]; exact hi)
          (by rw [hext.1.2.1]; exact hlen)
        rw [hfin, hext.2]
        omega
      | false =>
        exfalso
        have hq0 : ∀ j, j < c.numGates → ∀ k, k < (gateAt c j).fanin →
            (gateAt c j).inp k = (gateAt c i0).out →
              j = i0 ∧ (-1 : Int) = -1 := by
          intro j hj k hk hin
          rcases eq_or_ne j i0 with rfl | hne
          · exact ⟨rfl, rfl⟩
          · exact absurd hin (hpo j hj hne k hk)
        have hinitv := alapInit_nonpo hpoB
        have hval := alapGo_exit
          (P := fun s => sameShape c s ∧ (gateAt s i0).alap_level = -1)
          (fun cc hcc => alapPass_keeps_i0 hq0 cc hcc) fuel (alapInit c)
          ⟨hinitv.1, by rw [hinitv.2]; exact hinit i0 hi⟩ hgo2
        rw [hgo] at hval
        exact labeled_at hlab (by rw [hshape.1]; exact hi) hval.1.2
end Delphi

namespace Delphi

/-- Witness for C10 at the single-NOR circuit: its one gate is a primary
output, the ALAP loop exits, and that gate's level equals `max_alap`. -/
theorem c10_po_alap_is_max_witness :
    (gateAt (computeAlapSchedule singleNorAsap 5).1 0).alap_level
      = (computeAlapSchedule singleNorAsap 5).1.maxAlap :=
  c10_po_alap_is_max singleNorAsap 5 0 (by decide) (by decide) (by decide)
    (by decide) (by decide)

end Delphi
namespace Delphi

/-- The two decomposed 4-input lines `n2 = x1+x2+x3+x4`, `n3 = x5+x6+x7+x8`
(six NOR gates, two of them fed by compiler-generated negative wires). -/
def twoCascadeCircuit : Circuit :=
  ((parseNetlist ["n2 = x1+x2+x3+x4", "n3 = x5+x6+x7+x8"]).map
    findPrimaryInputs).getD Circuit.new

/-- `twoCascadeCircuit` after ASAP scheduling. -/
def twoCascadeAsap : Circuit := (computeAsapSchedule twoCascadeCircuit 10).1

/-- Its compact mapping. -/
def twoCascadeCompact : Circuit × Mapping := createCompactMapping twoCascadeAsap

/-- **C7 counterexample.** The gate producing `n3` (sorted index 5) is a NOR
whose first operand is the compiler-generated wire `-3`, produced on row 6,
while its second operand `-4` is produced on row 8: the rows differ, so the
mapper places a copy cell at `(8,3)` right before the NOR cell `(8,4)` — but
because `-3` is neither a primary input nor a positive id, the copy cell's
`value` stays at the sentinel `-1` (with no input reference) instead of
carrying operand 1's value `-3`, contradicting the claim. -/
theorem c7_copy_value_counterexample :
    (gateAt twoCascadeCompact.1 5).out = 3 ∧
    (gateAt twoCascadeCompact.1 5).inp 0 = -3 ∧
    (twoCascadeCompact.2.crossbar 6 2).value = -3 ∧
    (twoCascadeCompact.2.crossbar 6 2).idx = 6 ∧
    (twoCascadeCompact.2.crossbar 8 2).value = -4 ∧
    (twoCascadeCompact.2.crossbar 8 2).idx = 8 ∧
    (twoCascadeCompact.2.crossbar 8 3).is_copy = true ∧
    (twoCascadeCompact.2.crossbar 8 4).fanin = 2 ∧
    (twoCascadeCompact.2.crossbar 8 4).value = 3 ∧
    (twoCascadeCompact.2.crossbar 8 3).value = -1 ∧
    (twoCascadeCompact.2.crossbar 8 3).value ≠ -3 ∧
    ((twoCascadeCompact.2.crossbar 8 3).inp 0).isNone = true := by
  decide

/-- The primary-input cell placed by the compact mapper on row `i`. -/
def piCell (i : Nat) : MemGate :=
  ((MemGate.default.setValue (MAX_GATES + i)).setIdx i).setJdx 0

/-- The guard under which the compact mapper's copy cell receives operand 1's
value and input reference (`mapper/mod.rs:309`). -/
def copyGuard (c : Circuit) (ip : Int) : Prop :=
  ip ≥ MAX_GATES ∨ (ip > 0 ∧ (invMapGet c ip).isSome)

instance (c : Circuit) (ip : Int) : Decidable (copyGuard c ip) := by
  unfold copyGuard
  infer_instance

/-- Reading back the crossbar cell just written. -/
theorem wr_read_self (m : Mapping) (r c : Nat) (g : MemGate) :
    (m.wr r c g).crossbar r c = g := by
  unfold Mapping.wr
  dsimp only
  rw [if_pos ⟨rfl, rfl⟩]

/-- Reading any other crossbar cell. -/
theorem wr_read_ne {m : Mapping} {r0 c0 r c : Nat} (g : MemGate)
    (h : ¬ (r = r0 ∧ c = c0)) : (m.wr r0 c0 g).crossbar r c = m.crossbar r c := by
  unfold Mapping.wr
  dsimp only
  rw [if_neg h]

/-- Forget a gate's `gate_map` (the only field the mappers' loops modify). -/
def eraseMap (g : TableGate) : TableGate := { g with gate_map := none }

/-- Reading the gate just written (in-range writes). -/
theorem gateAt_setGate_self {c : Circuit} {i : Nat} {g : TableGate}
    (h : i < c.gates.length) : gateAt (setGate c i g) i = g := by
  unfold gateAt setGate
  dsimp only
  rw [List.getD_eq_getElem?_getD, List.getElem?_set_self']
  rw [List.getElem?_eq_getElem h]
  rfl

/-- Rewriting a gate's `gate_map` in place does not change its erasure. -/
theorem eraseMap_setGate_self {c : Circuit} {i : Nat} {v : Option MemGate} :
    eraseMap (gateAt (setGate c i
        { gateAt c i with gate_map := v }) i)
      = eraseMap (gateAt c i) := by
  unfold gateAt setGate
  dsimp only
  rw [List.getD_eq_getElem?_getD, List.getElem?_set_self']
  cases h : c.gates[i]? with
  | none =>
    have hg : c.gates.getD i TableGate.default = TableGate.default := by
      rw [List.getD_eq_getElem?_getD, h]
      rfl
    simp only [Functor.map, Option.map_none', Option.getD_none]
    rw [hg]
  | some g =>
    simp only [Functor.map, Option.map_some', Option.getD_some,
      Function.const]
    rfl

/-- Fold congruence: pointwise-equal step functions give equal folds. -/
theorem foldl_congr_fn {α σ : Type _} {f g : σ → α → σ}
    (h : ∀ s a, f s a = g s a) :
    ∀ (l : List α) (s : σ), l.foldl f s = l.foldl g s := by
  intro l
  induction l with
  | nil => intro s; rfl
  | cons a l ih =>
    intro s
    rw [List.foldl_cons, List.foldl_cons, h, ih]

/-- A successful `inv_map` lookup returns an index below `num_gates`. -/
theorem invMapGet_lt {c : Circuit} {w : Int} {gi : Nat}
    (h : invMapGet c w = some gi) : gi < c.numGates := by
  unfold invMapGet at h
  have : ∀ (L : List Nat) (acc : Option Nat),
      (acc = none ∨ ∃ j, acc = some j ∧ j < c.numGates) →
      (∀ a ∈ L, a < c.numGates) →
      (L.foldl (fun acc i => if (gateAt c i).out = w then some i else acc)
        acc = some gi) → gi < c.numGates := by
    intro L
    induction L with
    | nil =>
      intro acc hacc _ hfold
      rcases hacc with rfl | ⟨j, rfl, hj⟩
      · exact Option.noConfusion hfold
      · rw [List.foldl_nil] at hfold
        cases hfold
        exact hj
    | cons a L ih =>
      intro acc hacc hmem hfold
      rw [List.foldl_cons] at hfold
      refine ih _ ?_ (fun b hb => hmem b (List.mem_cons_of_mem a hb)) hfold
      split_ifs with hw
      · exact Or.inr ⟨a, rfl, hmem a (List.mem_cons_self a L)⟩
      · exact hacc
  exact this (List.range c.numGates) none (Or.inl rfl)
    (fun a ha => List.mem_range.mp ha) h

end Delphi

namespace Delphi

/-- Same gate count, input count, list length, and gates equal up to
`gate_map` (what the compact placement loop preserves about the circuit). -/
def mapShape (c c' : Circuit) : Prop :=
  c'.numGates = c.numGates ∧ c'.numInputs = c.numInputs ∧
  c'.gates.length = c.gates.length ∧
  ∀ i, eraseMap (gateAt c' i) = eraseMap (gateAt c i)

theorem mapShape_refl (c : Circuit) : mapShape c c := ⟨rfl, rfl, rfl, fun _ => rfl⟩

theorem mapShape_out {c c' : Circuit} (h : mapShape c c') (i : Nat) :
    (gateAt c' i).out = (gateAt c i).out := by
  have he := congrArg TableGate.out (h.2.2.2 i)
  exact he

theorem mapShape_fanin {c c' : Circuit} (h : mapShape c c') (i : Nat) :
    (gateAt c' i).fanin = (gateAt c i).fanin := by
  have he := congrArg TableGate.fanin (h.2.2.2 i)
  exact he

theorem mapShape_inp {c c' : Circuit} (h : mapShape c c') (i k : Nat) :
    (gateAt c' i).inp k = (gateAt c i).inp k := by
  have he := congrArg (fun g => TableGate.inp g k) (h.2.2.2 i)
  exact he

theorem mapShape_asap {c c' : Circuit} (h : mapShape c c') (i : Nat) :
    (gateAt c' i).asap_level = (gateAt c i).asap_level := by
  have he := congrArg TableGate.asap_level (h.2.2.2 i)
  exact he

/-- `inv_map` lookups only read gate outputs, so they transfer along
`mapShape`. -/
theorem invMapGet_congr {c c' : Circuit} (h : mapShape c c') (w : Int) :
    invMapGet c' w = invMapGet c w := by
  unfold invMapGet
  rw [h.1]
  apply foldl_congr_fn
  intro acc i
  rw [mapShape_out h i]

/-- Setting a gate's `gate_map` preserves `mapShape`. -/
theorem mapShape_setGate {c c' : Circuit} (h : mapShape c c') {i : Nat}
    {v : Option MemGate} :
    mapShape c (setGate c' i { gateAt c' i with gate_map := v }) := by
  refine ⟨h.1, h.2.1, ?_, ?_⟩
  · show (c'.gates.set i _).length = c.gates.length
    rw [List.length_set]
    exact h.2.2.1
  · intro j
    rcases eq_or_ne j i with rfl | hne
    · exact eraseMap_setGate_self.trans (h.2.2.2 j)
    · rw [gateAt_setGate_ne hne]
      exact h.2.2.2 j

end Delphi

namespace Delphi

/-- Loop invariant of `create_compact_mapping`'s gate loop, relative to the
sorted circuit `cS` the loop starts from. -/
structure CompactInv (cS : Circuit) (s : CState) : Prop where
  shape : mapShape cS s.c
  nor_cells : ∀ r cc : Nat, (s.m.crossbar r cc).fanin = 2 →
    (s.m.crossbar r cc).idx = (r : Int) ∧
    (∀ p, (s.m.crossbar r cc).inp 0 = some p → p.idx = (r : Int)) ∧
    (∀ p, (s.m.crossbar r cc).inp 1 = some p → p.idx = (r : Int))
  copy_adj : ∀ r cc : Nat, (s.m.crossbar r cc).is_copy = true →
    (s.m.crossbar r cc).idx = (r : Int) ∧
    (s.m.crossbar r (cc + 1)).fanin = 2 ∧
    (s.m.crossbar r (cc + 1)).inp 0 = some (s.m.crossbar r cc)
  gm : ∀ i, i < cS.numGates → ∀ mg, (gateAt s.c i).gate_map = some mg →
    mg.is_copy = false ∧ 0 ≤ mg.idx ∧ 0 ≤ mg.jdx ∧
    s.m.crossbar mg.idx.toNat mg.jdx.toNat = mg ∧
    mg.jdx.toNat < s.av mg.idx.toNat
  hw : ∀ r cc : Nat, s.av r ≤ cc → s.m.crossbar r cc = MemGate.default
  pi : ∀ r : Nat, r < cS.numInputs → s.m.crossbar r 0 = piCell r ∧ 1 ≤ s.av r
  processed : ∀ i, i < cS.numGates → ∀ mg kc,
    (gateAt s.c i).gate_map = some mg → mg.inp 0 = some kc →
    kc.is_copy = true →
    (copyGuard cS ((gateAt s.c i).inp 0) →
      kc.value = (gateAt s.c i).inp 0 ∧ (kc.inp 0).isSome = true) ∧
    (¬ copyGuard cS ((gateAt s.c i).inp 0) →
      kc.value = -1 ∧ kc.inp 0 = none)

/-- The cell found at an operand's row/column coordinates: it sits on the row
`rowOfOperand` reports, is not a copy, and lies strictly below the row's
high-water column. -/
theorem operand_cell {cS : Circuit} {s : CState} (hinv : CompactInv cS s)
    (hNI : 1 ≤ cS.numInputs) (ip : Int) :
    (s.m.crossbar (rowOfOperand s.c ip) (colOfOperand s.c ip)).idx
      = (rowOfOperand s.c ip : Int) ∧
    (s.m.crossbar (rowOfOperand s.c ip) (colOfOperand s.c ip)).is_copy
      = false ∧
    colOfOperand s.c ip < s.av (rowOfOperand s.c ip) := by
  have hNI' : s.c.numInputs = cS.numInputs := hinv.shape.2.1
  have hpi0 := hinv.pi 0 (by omega)
  unfold rowOfOperand colOfOperand
  by_cases hge : ip ≥ MAX_GATES
  · by_cases hbound : ip - MAX_GATES < (s.c.numInputs : Int)
    · rw [if_pos hge, if_pos hbound, if_pos hge]
      have hr : (ip - MAX_GATES).toNat < cS.numInputs := by
        rw [hNI'] at hbound
        unfold MAX_GATES at hge hbound ⊢
        omega
      have hp := hinv.pi _ hr
      rw [hp.1]
      refine ⟨rfl, rfl, ?_⟩
      have h1 := hp.2
      omega
    · rw [if_pos hge, if_neg hbound, if_pos hge]
      rw [hpi0.1]
      refine ⟨rfl, rfl, ?_⟩
      have h1 := hpi0.2
      omega
  · rw [if_neg hge, if_neg hge]
    cases hinvm : invMapGet s.c ip with
    | none =>
      dsimp only
      rw [hpi0.1]
      refine ⟨rfl, rfl, ?_⟩
      have h1 := hpi0.2
      omega
    | some gi =>
      dsimp only
      cases hgm : (gateAt s.c gi).gate_map with
      | none =>
        dsimp only
        rw [hpi0.1]
        refine ⟨rfl, rfl, ?_⟩
        have h1 := hpi0.2
        omega
      | some mg =>
        dsimp only
        have hlt : gi < cS.numGates := by
          have := invMapGet_lt hinvm
          rw [hinv.shape.1] at this
          exact this
        obtain ⟨hcp, hidx, hjdx, hcell, hbound⟩ := hinv.gm gi hlt mg hgm
        rw [hcell]
        refine ⟨?_, hcp, hbound⟩
        omega

end Delphi

namespace Delphi

/-- Placing one non-copy cell at the head of row `R`'s free columns (the NOT
and same-row-NOR cases) preserves the compact-mapping invariant. -/
theorem place_noncopy_inv {cS : Circuit} {s : CState}
    (hinv : CompactInv cS s) (hn : cS.numGates = cS.gates.length)
    {i R J : Nat} {g0 : MemGate} {av' : Nat → Nat}
    (hJ : J = s.av R)
    (hidx : g0.idx = (R : Int)) (hjdx : g0.jdx = (J : Int))
    (hcp : g0.is_copy = false)
    (hforNor : g0.fanin = 2 →
      (∀ p, g0.inp 0 = some p → p.idx = (R : Int)) ∧
      (∀ p, g0.inp 1 = some p → p.idx = (R : Int)))
    (hp0 : ∀ p, g0.inp 0 = some p → p.is_copy = false)
    (hmono : ∀ r, s.av r ≤ av' r) (hJ' : J < av' R) :
    CompactInv cS ⟨setGate s.c i { gateAt s.c i with gate_map := some g0 },
      s.m.wr R J g0, av'⟩ := by
  have hdef0 : (MemGate.default).fanin = 0 := rfl
  refine ⟨?_, ?_, ?_, ?_, ?_, ?_, ?_⟩
  · exact mapShape_setGate hinv.shape
  · -- nor_cells
    intro r cc hf2
    by_cases hpos : r = R ∧ cc = J
    · obtain ⟨rfl, rfl⟩ := hpos
      rw [wr_read_self] at hf2 ⊢
      exact ⟨hidx, (hforNor hf2).1, (hforNor hf2).2⟩
    · rw [wr_read_ne g0 hpos] at hf2 ⊢
      exact hinv.nor_cells r cc hf2
  · -- copy_adj
    intro r cc hcopy
    by_cases hpos : r = R ∧ cc = J
    · obtain ⟨rfl, rfl⟩ := hpos
      rw [wr_read_self] at hcopy
      rw [hcp] at hcopy
      exact absurd hcopy Bool.false_ne_true
    · rw [wr_read_ne g0 hpos] at hcopy
      obtain ⟨ha, hb, hc⟩ := hinv.copy_adj r cc hcopy
      have hpos1 : ¬ (r = R ∧ cc + 1 = J) := by
        rintro ⟨rfl, hccJ⟩
        have hdef := hinv.hw r J (by omega)
        rw [← hccJ] at hdef
        rw [hdef] at hb
        exact absurd hb (by simp [hdef0])
      rw [wr_read_ne g0 hpos, wr_read_ne g0 hpos1]
      exact ⟨ha, hb, hc⟩
  · -- gm
    intro j hj mg hmg
    by_cases hji : j = i
    · subst hji
      have hjlen : j < s.c.gates.length := by
        rw [hinv.shape.2.2.1, ← hn]
        exact hj
      rw [gateAt_setGate_self hjlen] at hmg
      dsimp only at hmg
      cases hmg
      refine ⟨hcp, by omega, by omega, ?_, ?_⟩
      · have h1 : g0.idx.toNat = R := by omega
        have h2 : g0.jdx.toNat = J := by omega
        rw [h1, h2, wr_read_self]
      · have h1 : g0.idx.toNat = R := by omega
        have h2 : g0.jdx.toNat = J := by omega
        rw [h1, h2]
        exact hJ'
    · rw [gateAt_setGate_ne hji] at hmg
      obtain ⟨ha, hb, hc, hd, he⟩ := hinv.gm j hj mg hmg
      have hpos : ¬ (mg.idx.toNat = R ∧ mg.jdx.toNat = J) := by
        rintro ⟨h1, h2⟩
        rw [h1] at he
        omega
      rw [wr_read_ne g0 hpos]
      exact ⟨ha, hb, hc, hd, lt_of_lt_of_le he (hmono _)⟩
  · -- hw
    intro r cc hcc
    dsimp only at hcc
    by_cases hpos : r = R ∧ cc = J
    · obtain ⟨h1, h2⟩ := hpos
      rw [h1, h2] at hcc
      omega
    · rw [wr_read_ne g0 hpos]
      exact hinv.hw r cc (le_trans (hmono r) hcc)
  · -- pi
    intro r hr
    have hold := hinv.pi r hr
    have hpos : ¬ (r = R ∧ 0 = J) := by
      rintro ⟨rfl, h0⟩
      have := hold.2
      omega
    rw [wr_read_ne g0 hpos]
    exact ⟨hold.1, le_trans hold.2 (hmono r)⟩
  · -- processed
    intro j hj mg kc hmg hinp hkcopy
    by_cases hji : j = i
    · subst hji
      have hjlen : j < s.c.gates.length := by
        rw [hinv.shape.2.2.1, ← hn]
        exact hj
      rw [gateAt_setGate_self hjlen] at hmg
      dsimp only at hmg
      cases hmg
      exact absurd hkcopy (by rw [hp0 kc hinp]; exact Bool.false_ne_true)
    · rw [gateAt_setGate_ne hji] at hmg ⊢
      exact hinv.processed j hj mg kc hmg hinp hkcopy
end Delphi

namespace Delphi

/-- Bumping a row's high-water mark never decreases any entry. -/
theorem avBump_mono (av : Nat → Nat) (r0 r : Nat) : av r ≤ avBump av r0 r := by
  unfold avBump
  split_ifs with h
  · subst h; omega
  · exact le_refl _

/-- The bumped row's new high-water mark. -/
theorem avBump_self (av : Nat → Nat) (r0 : Nat) : avBump av r0 r0 = av r0 + 1 := by
  unfold avBump
  rw [if_pos rfl]

/-- The compact-mapping invariant only reads the crossbar contents, never the
high-water fields of the `Mapping` record. -/
theorem compactInv_mcongr {cS : Circuit} {c : Circuit} {m m' : Mapping}
    {av : Nat → Nat} (h : CompactInv cS ⟨c, m, av⟩)
    (he : ∀ r cc, m'.crossbar r cc = m.crossbar r cc) :
    CompactInv cS ⟨c, m', av⟩ := by
  refine ⟨h.shape, ?_, ?_, ?_, ?_, ?_, h.processed⟩
  · intro r cc hf2
    dsimp only at hf2 ⊢
    simp only [he] at hf2 ⊢
    exact h.nor_cells r cc hf2
  · intro r cc hcopy
    dsimp only at hcopy ⊢
    simp only [he] at hcopy ⊢
    exact h.copy_adj r cc hcopy
  · intro j hj mg hmg
    dsimp only at hmg ⊢
    simp only [he]
    exact h.gm j hj mg hmg
  · intro r cc hcc
    dsimp only at hcc ⊢
    simp only [he]
    exact h.hw r cc hcc
  · intro r hr
    dsimp only
    simp only [he]
    exact h.pi r hr

end Delphi

namespace Delphi

/-- `place_noncopy_inv`, generalised to any mapping record whose crossbar
agrees with the single write (the loop body also touches `max_jdx`). -/
theorem place_noncopy_inv2 {cS : Circuit} {s : CState}
    (hinv : CompactInv cS s) (hn : cS.numGates = cS.gates.length)
    (R J : Nat) (hJ : J = s.av R)
    {i : Nat} {g0 : MemGate} {av' : Nat → Nat}
    (hidx : g0.idx = (R : Int)) (hjdx : g0.jdx = (J : Int))
    (hcp : g0.is_copy = false)
    (hforNor : g0.fanin = 2 →
      (∀ p, g0.inp 0 = some p → p.idx = (R : Int)) ∧
      (∀ p, g0.inp 1 = some p → p.idx = (R : Int)))
    (hp0 : ∀ p, g0.inp 0 = some p → p.is_copy = false)
    (hmono : ∀ r, s.av r ≤ av' r) (hJ' : J < av' R)
    (m' : Mapping)
    (he : ∀ r cc, m'.crossbar r cc = (Mapping.wr s.m R J g0).crossbar r cc) :
    CompactInv cS ⟨setGate s.c i { gateAt s.c i with gate_map := some g0 },
      m', av'⟩ :=
  compactInv_mcongr
    (place_noncopy_inv hinv hn hJ hidx hjdx hcp hforNor hp0 hmono hJ') he

/-- The copy cell is flagged `is_copy`. -/
theorem mkCopyGate_is_copy (c : Circuit) (m : Mapping) (ip1 : Int)
    (idx jdx : Nat) : (mkCopyGate c m ip1 idx jdx).is_copy = true := by
  unfold mkCopyGate
  dsimp only
  split_ifs <;> rfl

/-- The copy cell keeps the default fan-in `0`. -/
theorem mkCopyGate_fanin (c : Circuit) (m : Mapping) (ip1 : Int)
    (idx jdx : Nat) : (mkCopyGate c m ip1 idx jdx).fanin = 0 := by
  unfold mkCopyGate
  dsimp only
  split_ifs <;> rfl

/-- The copy cell records the row it was placed on. -/
theorem mkCopyGate_idx (c : Circuit) (m : Mapping) (ip1 : Int)
    (idx jdx : Nat) : (mkCopyGate c m ip1 idx jdx).idx = (idx : Int) := by
  unfold mkCopyGate
  dsimp only
  split_ifs <;> rfl

/-- The copy cell records the column it was placed on. -/
theorem mkCopyGate_jdx (c : Circuit) (m : Mapping) (ip1 : Int)
    (idx jdx : Nat) : (mkCopyGate c m ip1 idx jdx).jdx = (jdx : Int) := by
  unfold mkCopyGate
  dsimp only
  split_ifs <;> rfl

/-- The copy cell's `value` and input reference are set exactly under the
source's guard (`ip1` is a primary input, or a positive id with an `inv_map`
entry). -/
theorem mkCopyGate_guard (c : Circuit) (m : Mapping) (ip1 : Int)
    (idx jdx : Nat) :
    (copyGuard c ip1 → (mkCopyGate c m ip1 idx jdx).value = ip1 ∧
      ((mkCopyGate c m ip1 idx jdx).inp 0).isSome = true) ∧
    (¬ copyGuard c ip1 → (mkCopyGate c m ip1 idx jdx).value = -1 ∧
      (mkCopyGate c m ip1 idx jdx).inp 0 = none) := by
  unfold mkCopyGate copyGuard
  dsimp only
  by_cases hg : ip1 ≥ MAX_GATES ∨ (ip1 > 0 ∧ (invMapGet c ip1).isSome)
  · rw [if_pos hg]
    exact ⟨fun _ => ⟨rfl, rfl⟩, fun hng => absurd hg hng⟩
  · rw [if_neg hg]
    exact ⟨fun hgg => absurd hgg hg, fun _ => ⟨rfl, rfl⟩⟩

/-- The copy guard only reads gate outputs, so it transfers along
`mapShape`. -/
theorem copyGuard_congr {c c' : Circuit} (h : mapShape c c') (ip : Int) :
    copyGuard c' ip ↔ copyGuard c ip := by
  unfold copyGuard
  rw [invMapGet_congr h]

end Delphi

namespace Delphi

/-- Placing a copy cell at `(R, J)` followed by the NOR cell at `(R, J+1)`
(the different-rows case) preserves the compact-mapping invariant. -/
theorem place_copy_pair_inv {cS : Circuit} {s : CState}
    (hinv : CompactInv cS s) (hn : cS.numGates = cS.gates.length)
    (R J : Nat) (hJ : J = s.av R)
    {i : Nat} (kc : MemGate) {g0 : MemGate}
    (hkc_copy : kc.is_copy = true) (hkc_f : kc.fanin = 0)
    (hkc_idx : kc.idx = (R : Int)) (hkc_jdx : kc.jdx = (J : Int))
    (hidx : g0.idx = (R : Int)) (hjdx : g0.jdx = ((J + 1 : Nat) : Int))
    (hcp : g0.is_copy = false) (hf2 : g0.fanin = 2)
    (h0 : g0.inp 0 = some kc)
    (h1cell : ∀ p, g0.inp 1 = some p → p.idx = (R : Int))
    (hguard : (copyGuard cS ((gateAt s.c i).inp 0) →
        kc.value = (gateAt s.c i).inp 0 ∧ (kc.inp 0).isSome = true) ∧
      (¬ copyGuard cS ((gateAt s.c i).inp 0) →
        kc.value = -1 ∧ kc.inp 0 = none)) :
    CompactInv cS ⟨setGate s.c i { gateAt s.c i with gate_map := some g0 },
      (s.m.wr R J kc).wr R (J + 1) g0,
      avBump (avBump s.av R) R⟩ := by
  have hdef0 : (MemGate.default).fanin = 0 := rfl
  have hmono : ∀ r, s.av r ≤ avBump (avBump s.av R) R r := fun r =>
    le_trans (avBump_mono s.av R r) (avBump_mono (avBump s.av R) R r)
  refine ⟨?_, ?_, ?_, ?_, ?_, ?_, ?_⟩
  · exact mapShape_setGate hinv.shape
  · -- nor_cells
    intro r cc hfan
    by_cases h2 : r = R ∧ cc = J + 1
    · obtain ⟨rfl, rfl⟩ := h2
      rw [wr_read_self] at hfan ⊢
      refine ⟨hidx, ?_, h1cell⟩
      intro p hp
      rw [h0] at hp
      obtain rfl := Option.some.inj hp
      exact hkc_idx
    · by_cases h1 : r = R ∧ cc = J
      · obtain ⟨rfl, rfl⟩ := h1
        rw [wr_read_ne g0 (by omega), wr_read_self] at hfan
        rw [hkc_f] at hfan
        exact absurd hfan (by decide)
      · rw [wr_read_ne g0 h2, wr_read_ne kc h1] at hfan ⊢
        exact hinv.nor_cells r cc hfan
  · -- copy_adj
    intro r cc hcopy
    by_cases h2 : r = R ∧ cc = J + 1
    · obtain ⟨rfl, rfl⟩ := h2
      rw [wr_read_self] at hcopy
      rw [hcp] at hcopy
      exact absurd hcopy Bool.false_ne_true
    · by_cases h1 : r = R ∧ cc = J
      · obtain ⟨rfl, rfl⟩ := h1
        rw [wr_read_ne g0 (by omega), wr_read_self] at hcopy
        rw [wr_read_ne g0 (by omega), wr_read_self, wr_read_self]
        exact ⟨hkc_idx, hf2, h0⟩
      · rw [wr_read_ne g0 h2, wr_read_ne kc h1] at hcopy
        obtain ⟨ha, hb, hc⟩ := hinv.copy_adj r cc hcopy
        have hn1 : ¬ (r = R ∧ cc + 1 = J) := by
          rintro ⟨rfl, hccJ⟩
          have hdef := hinv.hw r J (by omega)
          rw [← hccJ] at hdef
          rw [hdef] at hb
          exact absurd hb (by simp [hdef0])
        have hn2 : ¬ (r = R ∧ cc + 1 = J + 1) := by
          rintro ⟨rfl, hcc1⟩
          exact h1 ⟨rfl, by omega⟩
        rw [wr_read_ne g0 h2, wr_read_ne kc h1, wr_read_ne g0 hn2,
          wr_read_ne kc hn1]
        exact ⟨ha, hb, hc⟩
  · -- gm
    intro j hj mg hmg
    by_cases hji : j = i
    · subst hji
      have hjlen : j < s.c.gates.length := by
        rw [hinv.shape.2.2.1, ← hn]
        exact hj
      rw [gateAt_setGate_self hjlen] at hmg
      dsimp only at hmg
      cases hmg
      refine ⟨hcp, by omega, by omega, ?_, ?_⟩
      · have ha : g0.idx.toNat = R := by omega
        have hb : g0.jdx.toNat = J + 1 := by omega
        rw [ha, hb, wr_read_self]
      · have ha : g0.idx.toNat = R := by omega
        have hb : g0.jdx.toNat = J + 1 := by omega
        dsimp only
        rw [ha, hb, avBump_self, avBump_self]
        omega
    · rw [gateAt_setGate_ne hji] at hmg
      obtain ⟨ha, hb, hc, hd, he⟩ := hinv.gm j hj mg hmg
      have hn2 : ¬ (mg.idx.toNat = R ∧ mg.jdx.toNat = J + 1) := by
        rintro ⟨h1, h2⟩
        rw [h1] at he
        omega
      have hn1 : ¬ (mg.idx.toNat = R ∧ mg.jdx.toNat = J) := by
        rintro ⟨h1, h2⟩
        rw [h1] at he
        omega
      rw [wr_read_ne g0 hn2, wr_read_ne kc hn1]
      exact ⟨ha, hb, hc, hd, lt_of_lt_of_le he (hmono _)⟩
  · -- hw
    intro r cc hcc
    dsimp only at hcc
    by_cases h2 : r = R ∧ cc = J + 1
    · obtain ⟨h1, h2'⟩ := h2
      rw [h1, h2', avBump_self, avBump_self] at hcc
      omega
    · by_cases h1 : r = R ∧ cc = J
      · obtain ⟨ha, hb⟩ := h1
        rw [ha, hb, avBump_self, avBump_self] at hcc
        omega
      · rw [wr_read_ne g0 h2, wr_read_ne kc h1]
        exact hinv.hw r cc (le_trans (hmono r) hcc)
  · -- pi
    intro r hr
    have hold := hinv.pi r hr
    have h1 : ¬ (r = R ∧ 0 = J) := by
      rintro ⟨rfl, hz⟩
      have := hold.2
      omega
    have h2 : ¬ (r = R ∧ 0 = J + 1) := by
      rintro ⟨_, hz⟩
      omega
    rw [wr_read_ne g0 h2, wr_read_ne kc h1]
    exact ⟨hold.1, le_trans hold.2 (hmono r)⟩
  · -- processed
    intro j hj mg kc' hmg hinp hkcopy
    by_cases hji : j = i
    · subst hji
      have hjlen : j < s.c.gates.length := by
        rw [hinv.shape.2.2.1, ← hn]
        exact hj
      dsimp only at hmg ⊢
      rw [gateAt_setGate_self hjlen] at hmg ⊢
      dsimp only at hmg
      cases hmg
      rw [h0] at hinp
      obtain rfl := Option.some.inj hinp
      exact hguard
    · dsimp only at hmg ⊢
      rw [gateAt_setGate_ne hji] at hmg ⊢
      exact hinv.processed j hj mg kc' hmg hinp hkcopy

/-- `place_copy_pair_inv`, generalised over the mapping record. -/
theorem place_copy_pair_inv2 {cS : Circuit} {s : CState}
    (hinv : CompactInv cS s) (hn : cS.numGates = cS.gates.length)
    (R J : Nat) (hJ : J = s.av R)
    {i : Nat} (kc : MemGate) {g0 : MemGate}
    (hkc_copy : kc.is_copy = true) (hkc_f : kc.fanin = 0)
    (hkc_idx : kc.idx = (R : Int)) (hkc_jdx : kc.jdx = (J : Int))
    (hidx : g0.idx = (R : Int)) (hjdx : g0.jdx = ((J + 1 : Nat) : Int))
    (hcp : g0.is_copy = false) (hf2 : g0.fanin = 2)
    (h0 : g0.inp 0 = some kc)
    (h1cell : ∀ p, g0.inp 1 = some p → p.idx = (R : Int))
    (hguard : (copyGuard cS ((gateAt s.c i).inp 0) →
        kc.value = (gateAt s.c i).inp 0 ∧ (kc.inp 0).isSome = true) ∧
      (¬ copyGuard cS ((gateAt s.c i).inp 0) →
        kc.value = -1 ∧ kc.inp 0 = none))
    (m' : Mapping)
    (he : ∀ r cc, m'.crossbar r cc
      = (Mapping.wr (Mapping.wr s.m R J kc) R (J + 1) g0).crossbar r cc) :
    CompactInv cS ⟨setGate s.c i { gateAt s.c i with gate_map := some g0 },
      m', avBump (avBump s.av R) R⟩ :=
  compactInv_mcongr
    (place_copy_pair_inv hinv hn R J hJ kc hkc_copy hkc_f hkc_idx hkc_jdx
      hidx hjdx hcp hf2 h0 h1cell hguard) he

end Delphi

namespace Delphi

/-- The body of `create_compact_mapping`'s primary-input placement loop. -/
def piStep (s : CState) (i : Nat) : CState :=
  ⟨s.c,
   s.m.wr i 0 ((((s.m.crossbar i 0).setValue (MAX_GATES + i)).setIdx
     i).setJdx 0),
   fun r => if r = i then 1 else s.av r⟩

/-- After placing the first `k` primary inputs: the circuit is untouched, the
crossbar holds exactly the `k` input cells in column `0`, and the per-row
column counters are `1` on those rows and `0` elsewhere. -/
theorem piFold_spec (c0 : Circuit) (k : Nat) :
    ((List.range k).foldl piStep ⟨c0, Mapping.new, fun _ => 0⟩).c = c0 ∧
    (∀ r cc, ((List.range k).foldl piStep
        ⟨c0, Mapping.new, fun _ => 0⟩).m.crossbar r cc
      = if r < k ∧ cc = 0 then piCell r else MemGate.default) ∧
    (∀ r, ((List.range k).foldl piStep ⟨c0, Mapping.new, fun _ => 0⟩).av r
      = if r < k then 1 else 0) := by
  induction k with
  | zero =>
    refine ⟨rfl, ?_, ?_⟩
    · intro r cc
      rw [if_neg (by omega)]
      rfl
    · intro r
      rw [if_neg (by omega)]
      rfl
  | succ k ih =>
    obtain ⟨ihc, ihm, ihav⟩ := ih
    rw [List.range_succ, List.foldl_append, List.foldl_cons, List.foldl_nil]
    refine ⟨ihc, ?_, ?_⟩
    · intro r cc
      show (((List.range k).foldl piStep ⟨c0, Mapping.new, fun _ => 0⟩).m.wr
        k 0 _).crossbar r cc = _
      have hcell : ((List.range k).foldl piStep
          ⟨c0, Mapping.new, fun _ => 0⟩).m.crossbar k 0 = MemGate.default := by
        rw [ihm k 0, if_neg (by omega)]
      rw [hcell]
      by_cases hpos : r = k ∧ cc = 0
      · obtain ⟨rfl, rfl⟩ := hpos
        rw [wr_read_self, if_pos ⟨Nat.lt_succ_self _, rfl⟩]
        rfl
      · rw [wr_read_ne _ hpos, ihm r cc]
        by_cases h2 : r < k ∧ cc = 0
        · rw [if_pos h2, if_pos ⟨by omega, h2.2⟩]
        · rw [if_neg h2, if_neg ?_]
          intro hcon
          by_cases h5 : r = k
          · exact hpos ⟨h5, hcon.2⟩
          · exact h2 ⟨by omega, hcon.2⟩
    · intro r
      show (if r = k then 1
        else ((List.range k).foldl piStep ⟨c0, Mapping.new, fun _ => 0⟩).av r)
          = _
      by_cases hr : r = k
      · rw [if_pos hr, if_pos (by omega)]
      · rw [if_neg hr, ihav r]
        by_cases h2 : r < k
        · rw [if_pos h2, if_pos (by omega)]
        · rw [if_neg h2, if_neg (by omega)]

/-- The invariant holds on entry to the gate-placement loop. -/
theorem compactInv_start (cS : Circuit)
    (hmaps : ∀ i, (gateAt cS i).gate_map = none) :
    CompactInv cS
      ((List.range cS.numInputs).foldl piStep ⟨cS, Mapping.new, fun _ => 0⟩) := by
  obtain ⟨hc, hm, hav⟩ := piFold_spec cS cS.numInputs
  refine ⟨?_, ?_, ?_, ?_, ?_, ?_, ?_⟩
  · rw [hc]
    exact mapShape_refl cS
  · intro r cc hf2
    rw [hm r cc] at hf2
    split_ifs at hf2 with h
    · rw [show (piCell r).fanin = 0 from rfl] at hf2
      exact absurd hf2 (by decide)
    · exact absurd hf2 (by decide)
  · intro r cc hcopy
    rw [hm r cc] at hcopy
    split_ifs at hcopy with h
    · rw [show (piCell r).is_copy = false from rfl] at hcopy
      exact absurd hcopy Bool.false_ne_true
    · exact absurd hcopy (by decide)
  · intro j hj mg hmg
    rw [hc, hmaps j] at hmg
    exact Option.noConfusion hmg
  · intro r cc hcc
    rw [hav r] at hcc
    rw [hm r cc, if_neg ?_]
    rintro ⟨h1, h2⟩
    rw [if_pos h1] at hcc
    omega
  · intro r hr
    refine ⟨?_, ?_⟩
    · rw [hm r 0, if_pos ⟨hr, rfl⟩]
    · rw [hav r, if_pos hr]
  · intro j hj mg kc hmg hinp hkcopy
    rw [hc, hmaps j] at hmg
    exact Option.noConfusion hmg

end Delphi

namespace Delphi

/-- The per-index gate fold preserves the list length. -/
theorem gateListFold_length (f : TableGate → TableGate) (n : Nat)
    (l : List TableGate) : (gateListFold f n l).length = l.length := by
  unfold gateListFold
  induction n with
  | zero => rfl
  | succ n ih =>
    rw [List.range_succ, List.foldl_append, List.foldl_cons, List.foldl_nil,
      List.length_set]
    exact ih

/-- After the shared reset-then-sort preamble, every gate's `gate_map`
reference is cleared (for well-formed circuits, whose `num_gates` equals the
gate-table length). -/
theorem sorted_reset_maps (c : Circuit) (hwf : c.numGates = c.gates.length)
    (i : Nat) :
    (gateAt (sortGatesByAsap (resetGateMaps c)) i).gate_map = none := by
  unfold sortGatesByAsap gateAt
  dsimp only
  rw [List.getD_eq_getElem?_getD]
  cases hh : (List.insertionSort (fun a b => a.asap_level ≤ b.asap_level)
      (resetGateMaps c).gates)[i]? with
  | none => rfl
  | some g =>
    have hmem : g ∈ (resetGateMaps c).gates := by
      have h1 : g ∈ List.insertionSort (fun a b => a.asap_level ≤ b.asap_level)
          (resetGateMaps c).gates := by
        exact List.getElem?_mem hh
      exact (List.perm_insertionSort _ _).mem_iff.mp h1
    rw [resetGateMaps_eq_listFold] at hmem
    dsimp only at hmem
    obtain ⟨k, hk⟩ := List.getElem?_of_mem hmem
    rw [gateListFold_getElem?] at hk
    have hklen : k < c.gates.length := by
      by_contra hge
      rcases Nat.lt_or_ge k c.numGates with h | h
      · rw [if_pos h, List.getElem?_eq_none (by omega)] at hk
        exact Option.noConfusion hk
      · rw [if_neg (by omega), List.getElem?_eq_none (by omega)] at hk
        exact Option.noConfusion hk
    rw [if_pos (by omega), List.getElem?_eq_getElem hklen] at hk
    have hg : { c.gates[k] with gate_map := none } = g := by
      have := Option.some.inj hk
      exact this
    rw [← hg]
    rfl

end Delphi

namespace Delphi

/-- One pass of `create_compact_mapping`'s gate loop preserves the
invariant. -/
theorem compactStep_inv {cS : Circuit} {s : CState}
    (hinv : CompactInv cS s) (hn : cS.numGates = cS.gates.length)
    (hNI : 1 ≤ cS.numInputs) (i : Nat) :
    CompactInv cS (compactStep s i) := by
  unfold compactStep
  dsimp only
  by_cases hf : (gateAt s.c i).fanin = 1
  · rw [if_pos hf]
    by_cases hge : (gateAt s.c i).inp 0 ≥ MAX_GATES
    · by_cases hbound : (gateAt s.c i).inp 0 - MAX_GATES
          < (s.c.numInputs : Int)
      · rw [if_pos hge, if_pos hbound]
        refine place_noncopy_inv2 hinv hn
          (rowOfOperand s.c ((gateAt s.c i).inp 0))
          (s.av (rowOfOperand s.c ((gateAt s.c i).inp 0))) rfl
          ?_ ?_ ?_ ?_ ?_ ?_ ?_ _ ?_
        · rfl
        · rfl
        · rfl
        · intro h
          exact absurd h (by decide : (1 : Nat) ≠ 2)
        · intro p hp
          obtain rfl := Option.some.inj hp
          have h2 : s.c.numInputs = cS.numInputs := hinv.shape.2.1
          rw [h2] at hbound
          have hr : ((gateAt s.c i).inp 0 - MAX_GATES).toNat
              < cS.numInputs := by
            omega
          rw [(hinv.pi _ hr).1]
          rfl
        · intro r
          exact avBump_mono s.av _ r
        · rw [avBump_self]
          omega
        · intro r cc
          split_ifs <;> rfl
      · rw [if_pos hge, if_neg hbound]
        refine place_noncopy_inv2 hinv hn
          (rowOfOperand s.c ((gateAt s.c i).inp 0))
          (s.av (rowOfOperand s.c ((gateAt s.c i).inp 0))) rfl
          ?_ ?_ ?_ ?_ ?_ ?_ ?_ _ ?_
        · rfl
        · rfl
        · rfl
        · intro h
          exact absurd h (by decide : (1 : Nat) ≠ 2)
        · intro p hp
          exact Option.noConfusion hp
        · intro r
          exact avBump_mono s.av _ r
        · rw [avBump_self]
          omega
        · intro r cc
          split_ifs <;> rfl
    · rw [if_neg hge]
      cases hinvm : invMapGet s.c ((gateAt s.c i).inp 0) with
      | none =>
        dsimp only
        refine place_noncopy_inv2 hinv hn
          (rowOfOperand s.c ((gateAt s.c i).inp 0))
          (s.av (rowOfOperand s.c ((gateAt s.c i).inp 0))) rfl
          ?_ ?_ ?_ ?_ ?_ ?_ ?_ _ ?_
        · rfl
        · rfl
        · rfl
        · intro h
          exact absurd h (by decide : (1 : Nat) ≠ 2)
        · intro p hp
          exact Option.noConfusion hp
        · intro r
          exact avBump_mono s.av _ r
        · rw [avBump_self]
          omega
        · intro r cc
          split_ifs <;> rfl
      | some gi =>
        dsimp only
        cases hgm : (gateAt s.c gi).gate_map with
        | none =>
          dsimp only
          refine place_noncopy_inv2 hinv hn
            (rowOfOperand s.c ((gateAt s.c i).inp 0))
            (s.av (rowOfOperand s.c ((gateAt s.c i).inp 0))) rfl
            ?_ ?_ ?_ ?_ ?_ ?_ ?_ _ ?_
          · rfl
          · rfl
          · rfl
          · intro h
            exact absurd h (by decide : (1 : Nat) ≠ 2)
          · intro p hp
            exact Option.noConfusion hp
          · intro r
            exact avBump_mono s.av _ r
          · rw [avBump_self]
            omega
          · intro r cc
            split_ifs <;> rfl
        | some mg =>
          dsimp only
          refine place_noncopy_inv2 hinv hn
            (rowOfOperand s.c ((gateAt s.c i).inp 0))
            (s.av (rowOfOperand s.c ((gateAt s.c i).inp 0))) rfl
            ?_ ?_ ?_ ?_ ?_ ?_ ?_ _ ?_
          · rfl
          · rfl
          · rfl
          · intro h
            exact absurd h (by decide : (1 : Nat) ≠ 2)
          · intro p hp
            obtain rfl := Option.some.inj hp
            have hlt : gi < cS.numGates := by
              have h1 := invMapGet_lt hinvm
              rw [hinv.shape.1] at h1
              exact h1
            exact (hinv.gm gi hlt mg hgm).1
          · intro r
            exact avBump_mono s.av _ r
          · rw [avBump_self]
            omega
          · intro r cc
            split_ifs <;> rfl
  · rw [if_neg hf]
    by_cases hrow : rowOfOperand s.c ((gateAt s.c i).inp 0)
        = rowOfOperand s.c ((gateAt s.c i).inp 1)
    · rw [if_pos hrow]
      refine place_noncopy_inv2 hinv hn
        (rowOfOperand s.c ((gateAt s.c i).inp 0))
        (s.av (rowOfOperand s.c ((gateAt s.c i).inp 0))) rfl
        ?_ ?_ ?_ ?_ ?_ ?_ ?_ _ ?_
      · rfl
      · rfl
      · rfl
      · intro _
        constructor
        · intro p hp
          obtain rfl := Option.some.inj hp
          exact (operand_cell hinv hNI _).1
        · intro p hp
          obtain rfl := Option.some.inj hp
          rw [hrow]
          exact (operand_cell hinv hNI _).1
      · intro p hp
        obtain rfl := Option.some.inj hp
        exact (operand_cell hinv hNI _).2.1
      · intro r
        exact le_trans (avBump_mono s.av _ r) (avBump_mono _ _ r)
      · rw [avBump_self, avBump_self]
        omega
      · intro r cc
        rfl
    · rw [if_neg hrow]
      rw [avBump_self, Nat.add_sub_cancel, wr_read_self]
      have hvlt := (operand_cell hinv hNI ((gateAt s.c i).inp 1)).2.2
      rw [wr_read_ne _ (by rintro ⟨h1, h2⟩; omega)]
      refine place_copy_pair_inv2 hinv hn
        (rowOfOperand s.c ((gateAt s.c i).inp 1))
        (s.av (rowOfOperand s.c ((gateAt s.c i).inp 1))) rfl
        (mkCopyGate s.c s.m ((gateAt s.c i).inp 0)
          (rowOfOperand s.c ((gateAt s.c i).inp 1))
          (s.av (rowOfOperand s.c ((gateAt s.c i).inp 1))))
        ?_ ?_ ?_ ?_ ?_ ?_ ?_ ?_ ?_ ?_ ?_ _ ?_
      · exact mkCopyGate_is_copy s.c s.m ((gateAt s.c i).inp 0)
          (rowOfOperand s.c ((gateAt s.c i).inp 1))
          (s.av (rowOfOperand s.c ((gateAt s.c i).inp 1)))
      · exact mkCopyGate_fanin s.c s.m ((gateAt s.c i).inp 0)
          (rowOfOperand s.c ((gateAt s.c i).inp 1))
          (s.av (rowOfOperand s.c ((gateAt s.c i).inp 1)))
      · exact mkCopyGate_idx s.c s.m ((gateAt s.c i).inp 0)
          (rowOfOperand s.c ((gateAt s.c i).inp 1))
          (s.av (rowOfOperand s.c ((gateAt s.c i).inp 1)))
      · exact mkCopyGate_jdx s.c s.m ((gateAt s.c i).inp 0)
          (rowOfOperand s.c ((gateAt s.c i).inp 1))
          (s.av (rowOfOperand s.c ((gateAt s.c i).inp 1)))
      · rfl
      · rfl
      · rfl
      · rfl
      · rfl
      · intro p hp
        obtain rfl := Option.some.inj hp
        exact (operand_cell hinv hNI _).1
      · constructor
        · intro hg
          exact (mkCopyGate_guard s.c s.m _ _ _).1
            ((copyGuard_congr hinv.shape _).mpr hg)
        · intro hg
          exact (mkCopyGate_guard s.c s.m _ _ _).2
            (fun hc => hg ((copyGuard_congr hinv.shape _).mp hc))
      · intro r cc
        rfl

end Delphi

namespace Delphi

/-- What `create_compact_mapping` guarantees: every NOR cell and its two
recorded input cells sit on the NOR's own row; every `is_copy` cell at
`(r, cc)` sits immediately before a NOR cell at `(r, cc + 1)` that takes it as
first input; and a copy feeding a mapped gate carries operand 1's value (with
an input reference) exactly when operand 1 is a primary input or a positive id
with an `inv_map` producer entry — otherwise its `value` stays `-1`. -/
def compactMapOk (cF : Circuit) (mF : Mapping) : Prop :=
  (∀ r cc : Nat, (mF.crossbar r cc).fanin = 2 →
    (mF.crossbar r cc).idx = (r : Int) ∧
    (∀ p, (mF.crossbar r cc).inp 0 = some p → p.idx = (r : Int)) ∧
    (∀ p, (mF.crossbar r cc).inp 1 = some p → p.idx = (r : Int))) ∧
  (∀ r cc : Nat, (mF.crossbar r cc).is_copy = true →
    (mF.crossbar r cc).idx = (r : Int) ∧
    (mF.crossbar r (cc + 1)).fanin = 2 ∧
    (mF.crossbar r (cc + 1)).inp 0 = some (mF.crossbar r cc)) ∧
  (∀ i, i < cF.numGates → ∀ mg kc, (gateAt cF i).gate_map = some mg →
    mg.inp 0 = some kc → kc.is_copy = true →
    (copyGuard cF ((gateAt cF i).inp 0) →
      kc.value = (gateAt cF i).inp 0 ∧ (kc.inp 0).isSome = true) ∧
    (¬ copyGuard cF ((gateAt cF i).inp 0) →
      kc.value = -1 ∧ kc.inp 0 = none))

/-- **C7.** (amended) For every well-formed circuit (gate count equal to the
gate-table length, at least one primary input), `create_compact_mapping`
yields a crossbar in which every NOR cell and both of its recorded input
cells carry the NOR's own row index; every `is_copy` cell sits immediately
before a NOR cell on the same row that takes it as first input; and such a
copy carries operand 1's value (with an input reference) exactly when
operand 1 is a primary input or a positive id with an `inv_map` entry —
otherwise the copy's `value` stays at the sentinel `-1` with no input
reference. -/
theorem c7_compact_copy_and_row_invariant (c : Circuit)
    (hwf : c.numGates = c.gates.length) (hNI : 1 ≤ c.numInputs) :
    compactMapOk (createCompactMapping c).1 (createCompactMapping c).2 := by
  have hr := resetGateMaps_eq_listFold c
  have hnum : (sortGatesByAsap (resetGateMaps c)).numGates = c.numGates := by
    unfold sortGatesByAsap
    dsimp only
    rw [hr]
  have hni : (sortGatesByAsap (resetGateMaps c)).numInputs = c.numInputs := by
    unfold sortGatesByAsap
    dsimp only
    rw [hr]
  have hlen : (sortGatesByAsap (resetGateMaps c)).gates.length
      = c.gates.length := by
    unfold sortGatesByAsap
    dsimp only
    rw [(List.perm_insertionSort _ _).length_eq, hr]
    dsimp only
    exact gateListFold_length _ _ _
  have hnS : (sortGatesByAsap (resetGateMaps c)).numGates
      = (sortGatesByAsap (resetGateMaps c)).gates.length := by
    rw [hnum, hlen]
    exact hwf
  have hNIS : 1 ≤ (sortGatesByAsap (resetGateMaps c)).numInputs := by
    rw [hni]
    exact hNI
  have hmaps := sorted_reset_maps c hwf
  unfold compactMapOk createCompactMapping
  dsimp only
  rw [if_neg (by rw [hni]; omega)]
  rw [show (fun (s : CState) i =>
      (⟨s.c,
        s.m.wr i 0 ((((s.m.crossbar i 0).setValue (MAX_GATES + i)).setIdx
          i).setJdx 0),
        fun r => if r = i then 1 else s.av r⟩ : CState))
    = piStep from rfl]
  have hinv0 := compactInv_start (sortGatesByAsap (resetGateMaps c)) hmaps
  have hinv1 : CompactInv (sortGatesByAsap (resetGateMaps c))
      ⟨((List.range (sortGatesByAsap (resetGateMaps c)).numInputs).foldl
          piStep ⟨sortGatesByAsap (resetGateMaps c), Mapping.new,
            fun _ => 0⟩).c,
        { ((List.range (sortGatesByAsap (resetGateMaps c)).numInputs).foldl
            piStep ⟨sortGatesByAsap (resetGateMaps c), Mapping.new,
              fun _ => 0⟩).m with
          maxIdx := ((sortGatesByAsap (resetGateMaps c)).numInputs : Int) - 1 },
        ((List.range (sortGatesByAsap (resetGateMaps c)).numInputs).foldl
          piStep ⟨sortGatesByAsap (resetGateMaps c), Mapping.new,
            fun _ => 0⟩).av⟩ :=
    compactInv_mcongr hinv0 (fun _ _ => rfl)
  have hinvF := foldl_inv
    (P := fun st => CompactInv (sortGatesByAsap (resetGateMaps c)) st)
    (fun st a hst => compactStep_inv hst hnS hNIS a)
    (List.range (sortGatesByAsap (resetGateMaps c)).numGates) _ hinv1
  refine ⟨hinvF.nor_cells, hinvF.copy_adj, ?_⟩
  intro j hj mg kc hmg hinp hkcopy
  have hj2 : j < (sortGatesByAsap (resetGateMaps c)).numGates := by
    rw [← hinvF.shape.1]
    exact hj
  have hp := hinvF.processed j hj2 mg kc hmg hinp hkcopy
  constructor
  · intro hg
    exact hp.1 ((copyGuard_congr hinvF.shape _).mp hg)
  · intro hg
    exact hp.2 (fun hcs => hg ((copyGuard_congr hinvF.shape _).mpr hcs))

end Delphi

namespace Delphi

/-- Witness: the two-cascade circuit satisfies both hypotheses of the C7
theorem, and hence its compact mapping satisfies `compactMapOk`. -/
theorem c7_compact_copy_and_row_invariant_witness :
    twoCascadeAsap.numGates = twoCascadeAsap.gates.length ∧
    1 ≤ twoCascadeAsap.numInputs ∧
    compactMapOk (createCompactMapping twoCascadeAsap).1
      (createCompactMapping twoCascadeAsap).2 :=
  ⟨by decide, by decide,
    c7_compact_copy_and_row_invariant twoCascadeAsap (by decide) (by decide)⟩

end Delphi
